import Mathlib

/-!
Shallow embedding of the Encointer ceremonies module (src/src/lib.rs):
participant registration, meetup assignment, attestation collection,
headcount ballot, reward issuance and registry purge, together with
theorems checking the natural-language specification against the code.

Machine integers of the source (u32 ceremony indices and votes, u64
participant/meetup/attestation indices) are modelled as Nat; the only
place the source performs a fallible arithmetic operation, the
checked_add of an index counter, is modelled with the explicit u64
bound.  Substrate storage maps are modelled as total functions
returning the type's default value for absent keys, which is exactly
the semantics of StorageMap/StorageDoubleMap get.  External
collaborators (scheduler phase and index, currency registry,
geolocation primitives, signature verification, the balances ledger)
are capabilities collected in an Env record, as in the source's
trait bounds.
-/

set_option maxHeartbeats 1000000

namespace Encointer

/-- Account ids, currency ids, ceremony indices, participant, meetup and
attestation indices, moments and signatures of the source are all
modelled as Nat. -/
abbrev CurrencyCeremony := Nat × Nat

/-- u64::MAX, the bound of the source's index counters. -/
def u64Max : Nat := 2 ^ 64 - 1

/-- const REPUTATION_LIFETIME: u32 = 1. -/
def REPUTATION_LIFETIME : Nat := 1

/-- checked_add on a u64 counter: some iff no overflow. -/
def checkedAddU64 (a b : Nat) : Option Nat :=
  if a + b ≤ u64Max then some (a + b) else none

/-- checked_sub on Nat (a Nat-valued time type). -/
def checkedSubM (a b : Nat) : Option Nat :=
  if b ≤ a then some (a - b) else none

/-- enum Reputation of the source. -/
inductive Reputation where
  | Unverified
  | UnverifiedReputable
  | VerifiedUnlinked
  | VerifiedLinked
deriving DecidableEq, Repr, Inhabited

/-- enum CeremonyPhaseType of the scheduler collaborator. -/
inductive CeremonyPhaseType where
  | REGISTERING
  | ASSIGNING
  | ATTESTING
deriving DecidableEq, Repr, Inhabited

/-- struct Location: a geographic coordinate; Degree is modelled as Int. -/
structure Location where
  lat : Int
  lon : Int
deriving DecidableEq, Repr, Inhabited

/-- struct ClaimOfAttendance of the source. -/
structure ClaimOfAttendance where
  claimant_public : Nat
  ceremony_index : Nat
  currency_identifier : Nat
  meetup_index : Nat
  timestamp : Nat
  location : Location
  number_of_participants_confirmed : Nat
deriving DecidableEq, Repr, Inhabited

/-- struct Attestation of the source (claim, signature, witness public key). -/
structure Attestation where
  claim : ClaimOfAttendance
  signature : Nat
  public : Nat
deriving DecidableEq, Repr, Inhabited

/-- struct ProofOfAttendance of the source. -/
structure ProofOfAttendance where
  prover_public : Nat
  ceremony_index : Nat
  currency_identifier : Nat
  attendee_public : Nat
  attendee_signature : Nat
deriving DecidableEq, Repr, Inhabited

/-- The external collaborators consumed by the module: scheduler,
currency registry, geodistance, signature verification and ledger. -/
structure Env where
  currentPhase : CeremonyPhaseType
  currentCeremonyIndex : Nat
  currencyIdentifiers : List Nat
  bootstrappers : Nat → List Nat
  isValidGeolocation : Location → Bool
  haversineDistance : Location → Location → Nat
  locations : Nat → List Location
  phaseDurationAttesting : Nat
  nextPhaseTimestamp : Nat
  momentsPerDay : Nat
  verifySigClaim : Nat → ClaimOfAttendance → Nat → Bool
  verifySigProof : Nat → Nat × Nat → Nat → Bool
  issueOk : Nat → Nat → Bool
  ceremonyReward : Nat
  locationTolerance : Nat
  timeTolerance : Nat

/-- The module's storage.  Each map is a total function returning the
default value of its value type for keys never inserted, matching
Substrate storage semantics; `issued` records successful ledger
issuances for observation. -/
structure State where
  participantRegistry : CurrencyCeremony → Nat → Nat
  participantIndex : CurrencyCeremony → Nat → Nat
  participantCount : CurrencyCeremony → Nat
  participantReputation : CurrencyCeremony → Nat → Reputation
  meetupRegistry : CurrencyCeremony → Nat → List Nat
  meetupIndex : CurrencyCeremony → Nat → Nat
  meetupCount : CurrencyCeremony → Nat
  attestationRegistry : CurrencyCeremony → Nat → List Nat
  attestationIndex : CurrencyCeremony → Nat → Nat
  attestationCount : CurrencyCeremony → Nat
  meetupParticipantCountVote : CurrencyCeremony → Nat → Nat
  issued : List (Nat × Nat × Nat)

/-- Point update of a single-key storage map. -/
def upd1 {α β : Type} [DecidableEq α] (f : α → β) (x : α) (v : β) : α → β :=
  fun x' => if x' = x then v else f x'

/-- Point update of a double-key storage map. -/
def upd2 {α β γ : Type} [DecidableEq α] [DecidableEq β]
    (f : α → β → γ) (x : α) (y : β) (v : γ) : α → β → γ :=
  fun x' y' => if x' = x then (if y' = y then v else f x' y') else f x' y'

/-- remove_prefix on a double map: every entry under the first key
reverts to the default value. -/
def clearAt2 {α β γ : Type} [DecidableEq α] (f : α → β → γ) (x : α) (d : γ) :
    α → β → γ :=
  fun x' => if x' = x then fun _ => d else f x'

/-- The module's dispatch errors. -/
inductive Err where
  | PhaseViolation
  | CurrencyIdentifierNotFound
  | ParticipantAlreadyRegistered
  | CounterOverflow
  | ProofNotProvingSender
  | ProofAcausal
  | ProofOutdated
  | ReputationNotVerifiedUnlinked
  | BadProofOfAttendanceSignature
  | EmptyAttestations
  | OriginNotInMeetup
  | TooManyAttestations
  | MeetupLocationNotFound
  | MeetupTimeCalculationError
  | NoValidAttestations
deriving DecidableEq, Repr

/-- fn verify_attendee_signature: verification of the attendee signature
over (prover, ceremony index) of a proof of attendance. -/
def verifyAttendeeSignature (env : Env) (p : ProofOfAttendance) : Bool :=
  env.verifySigProof p.attendee_signature (p.prover_public, p.ceremony_index)
    p.attendee_public

/-- The proof-of-attendance block of register_participant: the five
ensures of the source in order and, on success, the burn of the source
reputation to VerifiedLinked together with the caller's promotion to
UnverifiedReputable. -/
def proofCheck (env : Env) (s : State) (sender cid cindex : Nat)
    (p : ProofOfAttendance) : Except Err State :=
  if sender ≠ p.prover_public then .error .ProofNotProvingSender
  else if ¬ p.ceremony_index < cindex then .error .ProofAcausal
  else if ¬ cindex - REPUTATION_LIFETIME ≤ p.ceremony_index then
    .error .ProofOutdated
  else if s.participantReputation
      (p.currency_identifier, p.ceremony_index) p.attendee_public
      ≠ Reputation.VerifiedUnlinked then
    .error .ReputationNotVerifiedUnlinked
  else if ¬ verifyAttendeeSignature env p then
    .error .BadProofOfAttendanceSignature
  else
    .ok { s with
      participantReputation :=
        upd2 (upd2 s.participantReputation
            (p.currency_identifier, p.ceremony_index)
            p.attendee_public Reputation.VerifiedLinked)
          (cid, cindex) sender Reputation.UnverifiedReputable }

/-- fn register_participant: registration of `sender` for the current
ceremony, optionally consuming a proof of attendance. -/
def registerParticipant (env : Env) (s : State) (sender : Nat)
    (cid : Nat) (proof : Option ProofOfAttendance) :
    Except Err State :=
  if env.currentPhase ≠ CeremonyPhaseType.REGISTERING then
    .error .PhaseViolation
  else if cid ∉ env.currencyIdentifiers then
    .error .CurrencyIdentifierNotFound
  else if s.participantIndex (cid, env.currentCeremonyIndex) sender ≠ 0 then
    .error .ParticipantAlreadyRegistered
  else
    match checkedAddU64
        (s.participantCount (cid, env.currentCeremonyIndex)) 1 with
    | none => .error .CounterOverflow
    | some newCount =>
      match (match proof with
        | none => Except.ok s
        | some p =>
          proofCheck env s sender cid env.currentCeremonyIndex p) with
      | .error e => .error e
      | .ok s1 =>
        .ok { s1 with
          participantRegistry :=
            upd2 s1.participantRegistry (cid, env.currentCeremonyIndex)
              newCount sender
          participantIndex :=
            upd2 s1.participantIndex (cid, env.currentCeremonyIndex)
              sender newCount
          participantCount :=
            upd1 s1.participantCount (cid, env.currentCeremonyIndex)
              newCount }

/-- fn grant_reputation (state effect after the ceremony-master check):
sets reputation for the previous ceremony index to VerifiedUnlinked. -/
def grantReputation (env : Env) (s : State) (cid : Nat)
    (reputable : Nat) : State :=
  { s with
    participantReputation :=
      upd2 s.participantReputation (cid, env.currentCeremonyIndex - 1)
        reputable Reputation.VerifiedUnlinked }

/-- fn get_meetup_location: the 1-indexed meetup location from the
currency registry's ordered location list. -/
def getMeetupLocation (env : Env) (cid : Nat)
    (meetupIdx : Nat) : Option Location :=
  let locs := env.locations cid
  if meetupIdx ≤ locs.length then some (locs.getD (meetupIdx - 1) default)
  else none

/-- fn get_meetup_time: meetup start derived from the attesting-phase
window and the meetup location's longitude. -/
def getMeetupTime (env : Env) (cid : Nat)
    (meetupIdx : Nat) : Option Nat :=
  if env.currentPhase ≠ CeremonyPhaseType.ATTESTING then none
  else
    match getMeetupLocation env cid meetupIdx with
    | none => none
    | some mlocation =>
      let duration := env.phaseDurationAttesting
      let next := env.nextPhaseTimestamp
      let day := env.momentsPerDay
      let perdegree := day / 360
      let start := next - duration
      let absLonTime := mlocation.lon.natAbs * perdegree
      if mlocation.lon < 0 then some (start + day + absLonTime)
      else some (start + day - absLonTime)

/-- fn verify_attestation_signature: rejects self-signed attestations and
verifies the witness signature over the claim. -/
def verifyAttestationSignature (env : Env) (a : Attestation) : Bool :=
  a.public ≠ a.claim.claimant_public &&
    env.verifySigClaim a.signature a.claim a.public

/-- The per-claim filter of register_attestations: all silent-drop checks
of the source's loop body, in source order. -/
def attestationPasses (env : Env) (cindex : Nat)
    (cid : Nat) (meetupIdx : Nat)
    (others : List Nat) (mlocation : Location) (mtime : Nat)
    (a : Attestation) : Bool :=
  a.public ∈ others &&
  a.claim.ceremony_index = cindex &&
  a.claim.currency_identifier = cid &&
  a.claim.meetup_index = meetupIdx &&
  env.isValidGeolocation a.claim.location &&
  env.haversineDistance mlocation a.claim.location ≤ env.locationTolerance &&
  (match checkedSubM mtime a.claim.timestamp with
   | some dt => dt ≤ env.timeTolerance
   | none =>
     match checkedSubM a.claim.timestamp mtime with
     | some dt => dt ≤ env.timeTolerance
     | none => true) &&
  verifyAttestationSignature env a

/-- The accumulation step of register_attestations' loop: a passing
attestation's signer is inserted at the front of the verified list and
its confirmed-count becomes the current headcount vote. -/
def attestationStep (env : Env) (cindex : Nat)
    (cid : Nat) (meetupIdx : Nat)
    (others : List Nat) (mlocation : Location) (mtime : Nat)
    (acc : List Nat × Nat) (a : Attestation) :
    List Nat × Nat :=
  if attestationPasses env cindex cid meetupIdx others mlocation mtime a then
    (a.public :: acc.1, a.claim.number_of_participants_confirmed)
  else acc

/-- fn register_attestations: filters the submitted attestations against
the caller's meetup context and stores the surviving witness list and the
caller's headcount vote. -/
def registerAttestations (env : Env) (s : State) (sender : Nat)
    (attestations : List Attestation) : Except Err State :=
  if env.currentPhase ≠ CeremonyPhaseType.ATTESTING then
    .error .PhaseViolation
  else
    let cindex := env.currentCeremonyIndex
    match attestations with
    | [] => .error .EmptyAttestations
    | a0 :: _ =>
      let cid := a0.claim.currency_identifier
      if cid ∉ env.currencyIdentifiers then .error .CurrencyIdentifierNotFound
      else
        let meetupIdx := s.meetupIndex (cid, cindex) sender
        let meetupParticipants := s.meetupRegistry (cid, cindex) meetupIdx
        if sender ∉ meetupParticipants then .error .OriginNotInMeetup
        else
          let others := meetupParticipants.filter (fun x => x ≠ sender)
          if ¬ attestations.length ≤ others.length then
            .error .TooManyAttestations
          else
            match getMeetupLocation env cid meetupIdx with
            | none => .error .MeetupLocationNotFound
            | some mlocation =>
              match getMeetupTime env cid meetupIdx with
              | none => .error .MeetupTimeCalculationError
              | some mtime =>
                let res := attestations.foldl
                  (attestationStep env cindex cid meetupIdx others mlocation
                    mtime) ([], 0)
                if res.1.length = 0 then .error .NoValidAttestations
                else
                  let count := s.attestationCount (cid, cindex)
                  if s.attestationIndex (cid, cindex) sender ≠ 0 then
                    let idx := s.attestationIndex (cid, cindex) sender
                    .ok { s with
                      attestationRegistry :=
                        upd2 s.attestationRegistry (cid, cindex) idx res.1
                      attestationIndex :=
                        upd2 s.attestationIndex (cid, cindex) sender idx
                      meetupParticipantCountVote :=
                        upd2 s.meetupParticipantCountVote (cid, cindex)
                          sender res.2 }
                  else
                    match checkedAddU64 count 1 with
                    | none => .error .CounterOverflow
                    | some newCount =>
                      let idx := count + 1
                      .ok { s with
                        attestationCount :=
                          upd1 s.attestationCount (cid, cindex) newCount
                        attestationRegistry :=
                          upd2 s.attestationRegistry (cid, cindex) idx res.1
                        attestationIndex :=
                          upd2 s.attestationIndex (cid, cindex) sender idx
                        meetupParticipantCountVote :=
                          upd2 s.meetupParticipantCountVote (cid, cindex)
                            sender res.2 }

/-- The participant-collection loop of assign_meetups: participants in
registration-index order are split into reputables (UnverifiedReputable
or bootstrapper) and newbies. -/
def collectParticipants (env : Env) (s : State) (cid : Nat)
    (cindex : Nat) : List Nat × List Nat :=
  (List.range (s.participantCount (cid, cindex))).foldl
    (fun rn p0 =>
      let p := s.participantRegistry (cid, cindex) (p0 + 1)
      if s.participantReputation (cid, cindex) p
            = Reputation.UnverifiedReputable
          ∨ p ∈ env.bootstrappers cid then
        (rn.1 ++ [p], rn.2)
      else (rn.1, rn.2 ++ [p]))
    ([], [])

/-- The reputable round-robin loop of assign_meetups: reputable `i` is
pushed onto meetup `i mod k` and that meetup's reputable counter is
incremented.  `i` is the running enumeration index. -/
def distributeReputables (reps : List Nat) (k i : Nat)
    (ms : List (List Nat)) (nrep : List Nat) :
    List (List Nat) × List Nat :=
  match reps with
  | [] => (ms, nrep)
  | p :: rest =>
    distributeReputables rest k (i + 1)
      (ms.set (i % k) (ms.getD (i % k) [] ++ [p]))
      (nrep.set (i % k) (nrep.getD (i % k) 0 + 1))

/-- The newbie round-robin loop of assign_meetups: newbie `i` joins
meetup `i mod k` only while that meetup's size is below its reputable
count times 4/3 (integer division); otherwise it is skipped. -/
def distributeNewbies (news : List Nat) (k i : Nat)
    (ms : List (List Nat)) (nrep : List Nat) :
    List (List Nat) :=
  match news with
  | [] => ms
  | p :: rest =>
    let idx := i % k
    let ms' :=
      if (ms.getD idx []).length < nrep.getD idx 0 * 4 / 3 then
        ms.set idx (ms.getD idx [] ++ [p])
      else ms
    distributeNewbies rest k (i + 1) ms' nrep

/-- The undersized-meetup removal of assign_meetups: the ascending list
of indices of meetups of size below 3 is collected first, then each
index is removed from the (shifting) vector in turn, exactly as the
source's `meetups.remove(i)` loop does. -/
def removeUndersized (ms : List (List Nat)) : List (List Nat) :=
  let toosmall := (List.range ms.length).filter
    (fun i => (ms.getD i []).length < 3)
  toosmall.foldl (fun acc i => acc.eraseIdx i) ms

/-- The commit loop of assign_meetups: meetup `i` (0-based enumeration
starting at i0) is stored under index i0+i+1; each member's reverse
index is written first, then the member list. -/
def commitMeetups (cc : CurrencyCeremony) (i0 : Nat) :
    List (List Nat) → State → State
  | [], s => s
  | m :: rest, s =>
    let s1 := m.foldl
      (fun t p => { t with meetupIndex := upd2 t.meetupIndex cc p (i0 + 1) })
      s
    let s2 := { s1 with
      meetupRegistry := upd2 s1.meetupRegistry cc (i0 + 1) m }
    commitMeetups cc (i0 + 1) rest s2

/-- The meetup-count formula of assign_meetups: the target pool is the
reputables plus at most a quarter as many newbies, and one meetup is
attempted per started dozen. -/
def nMeetupsOf (reps news : List Nat) : Nat :=
  (reps.length + min news.length (reps.length / 4)) / 12 + 1

/-- The post-distribution meetup vector of assign_meetups for one
community: reputables round-robin, then newbies under the per-meetup
limit. -/
def distributedMeetups (reps news : List Nat) :
    List (List Nat) :=
  let k := nMeetupsOf reps news
  let rn := distributeReputables reps k 0
    (List.replicate k []) (List.replicate k 0)
  distributeNewbies news k 0 rn.1 rn.2

/-- fn assign_meetups, restricted to one community: partition, distribute,
discard undersized meetups and commit the result (committing nothing when
no meetup survives). -/
def assignMeetupsFor (env : Env) (s : State) (cid : Nat) :
    State :=
  if (removeUndersized (distributedMeetups
      (collectParticipants env s cid env.currentCeremonyIndex).1
      (collectParticipants env s cid env.currentCeremonyIndex).2)).isEmpty
  then s
  else
    commitMeetups (cid, env.currentCeremonyIndex) 0
      (removeUndersized (distributedMeetups
        (collectParticipants env s cid env.currentCeremonyIndex).1
        (collectParticipants env s cid env.currentCeremonyIndex).2))
      { s with
        meetupCount := upd1 s.meetupCount (cid, env.currentCeremonyIndex)
          (nMeetupsOf
            (collectParticipants env s cid env.currentCeremonyIndex).1
            (collectParticipants env s cid env.currentCeremonyIndex).2) }

/-- fn assign_meetups over all known communities. -/
def assignMeetups (env : Env) (s : State) : State :=
  env.currencyIdentifiers.foldl (assignMeetupsFor env) s

/-- The tally update of ballot_meetup_n_votes: the first bucket holding
this vote value is incremented, if any. -/
def bumpVote (v : Nat) : List (Nat × Nat) → Option (List (Nat × Nat))
  | [] => none
  | (n, c) :: rest =>
    if n = v then some ((n, c + 1) :: rest)
    else (bumpVote v rest).map (fun l => (n, c) :: l)

/-- One member's contribution to the tally of ballot_meetup_n_votes:
zero votes are skipped, a known value bumps its bucket, a new value is
inserted at the front. -/
def tallyStep (acc : List (Nat × Nat)) (v : Nat) : List (Nat × Nat) :=
  if 0 < v then
    match bumpVote v acc with
    | some acc' => acc'
    | none => (v, 1) :: acc
  else acc

/-- Stable insertion for the descending-by-count sort: x is placed
before the first element whose count does not exceed x's. -/
def insertDesc (x : Nat × Nat) : List (Nat × Nat) → List (Nat × Nat)
  | [] => [x]
  | y :: ys => if y.2 ≤ x.2 then x :: y :: ys else y :: insertDesc x ys

/-- The stable sort by descending vote count used on the tally,
extensionally equal to the source's stable sort_by on the count. -/
def sortDescByCount : List (Nat × Nat) → List (Nat × Nat)
  | [] => []
  | x :: xs => insertDesc x (sortDescByCount xs)

/-- The tally of a member list's headcount votes, in source order. -/
def tallyOf (s : State) (cc : CurrencyCeremony) (ps : List Nat) :
    List (Nat × Nat) :=
  ps.foldl (fun acc p => tallyStep acc (s.meetupParticipantCountVote cc p)) []

/-- fn ballot_meetup_n_votes: the winning (value, count) bucket of a
meetup's headcount votes, none when there is no vote or the winning
bucket has fewer than 3 votes. -/
def ballotMeetupNVotes (s : State) (cid : Nat)
    (cindex : Nat) (meetupIdx : Nat) :
    Option (Nat × Nat) :=
  let cands := tallyOf s (cid, cindex) (s.meetupRegistry (cid, cindex) meetupIdx)
  match sortDescByCount cands with
  | [] => none
  | top :: _ => if top.2 < 3 then none else some top

/-- A participant's attestation bundle: the witness list stored under
their attestation index. -/
def bundleOf (s : State) (cc : CurrencyCeremony) (p : Nat) :
    List Nat :=
  s.attestationRegistry cc (s.attestationIndex cc p)

/-- The reciprocity count of issue_rewards: how many entries of p's
bundle (with multiplicity) list p back in their own bundle. -/
def reciprocalCount (s : State) (cc : CurrencyCeremony) (p : Nat) :
    Nat :=
  (bundleOf s cc p).countP (fun w => p ∈ bundleOf s cc w)

/-- The per-member body of issue_rewards' inner loop: skip on wrong vote,
thin bundle or failed reciprocity, otherwise request issuance and, on
ledger success, promote reputation to VerifiedUnlinked. -/
def rewardMember (env : Env) (cid : Nat)
    (cindex : Nat) (nConfirmed nHonest : Nat) (t : State)
    (p : Nat) : State :=
  if t.meetupParticipantCountVote (cid, cindex) p ≠ nConfirmed then t
  else if (bundleOf t (cid, cindex) p).length < nHonest - 1 ∨
      (bundleOf t (cid, cindex) p).length = 0 then t
  else if reciprocalCount t (cid, cindex) p < nHonest - 1 then t
  else if env.issueOk cid p then
    { t with
      issued := t.issued ++ [(cid, p, env.ceremonyReward)]
      participantReputation :=
        upd2 t.participantReputation (cid, cindex) p
          Reputation.VerifiedUnlinked }
  else t

/-- The per-meetup body of issue_rewards: evaluate the ballot, skip the
whole meetup when it is not dependable, otherwise process each member. -/
def issueRewardsMeetup (env : Env) (cid : Nat)
    (cindex : Nat) (m : Nat) (s : State) : State :=
  match ballotMeetupNVotes s cid cindex m with
  | none => s
  | some nn =>
    (s.meetupRegistry (cid, cindex) m).foldl
      (rewardMember env cid cindex nn.1 nn.2) s

/-- issue_rewards for one community: all meetups of the concluded
ceremony in index order. -/
def issueRewardsFor (env : Env) (cid : Nat) (s : State) :
    State :=
  let cindex := env.currentCeremonyIndex - 1
  (List.range (s.meetupCount (cid, cindex))).foldl
    (fun t i => issueRewardsMeetup env cid cindex (i + 1) t) s

/-- fn issue_rewards: a no-op outside REGISTERING, otherwise the reward
ballot over every known community's concluded ceremony. -/
def issueRewards (env : Env) (s : State) : State :=
  if env.currentPhase ≠ CeremonyPhaseType.REGISTERING then s
  else env.currencyIdentifiers.foldl (fun t cid => issueRewardsFor env cid t) s

/-- The per-community body of purge_registry: every per-ceremony map for
the given ceremony key reverts to its default and the counters are set
to zero. -/
def purgeFor (cindex : Nat) (s : State)
    (cid : Nat) : State :=
  { s with
    participantRegistry := clearAt2 s.participantRegistry (cid, cindex) 0
    participantIndex := clearAt2 s.participantIndex (cid, cindex) 0
    participantCount := upd1 s.participantCount (cid, cindex) 0
    meetupRegistry := clearAt2 s.meetupRegistry (cid, cindex) []
    meetupIndex := clearAt2 s.meetupIndex (cid, cindex) 0
    meetupCount := upd1 s.meetupCount (cid, cindex) 0
    attestationRegistry := clearAt2 s.attestationRegistry (cid, cindex) []
    attestationIndex := clearAt2 s.attestationIndex (cid, cindex) 0
    attestationCount := upd1 s.attestationCount (cid, cindex) 0
    meetupParticipantCountVote :=
      clearAt2 s.meetupParticipantCountVote (cid, cindex) 0 }

/-- fn purge_registry: clears the concluded ceremony's per-ceremony state
for every known community. -/
def purgeRegistry (env : Env) (cindex : Nat) (s : State) :
    State :=
  env.currencyIdentifiers.foldl (purgeFor cindex) s

/-- fn on_ceremony_phase_change: the phase dispatch hook. -/
def onCeremonyPhaseChange (env : Env) (newPhase : CeremonyPhaseType)
    (s : State) : State :=
  match newPhase with
  | .ASSIGNING => assignMeetups env s
  | .ATTESTING => s
  | .REGISTERING =>
    purgeRegistry env (env.currentCeremonyIndex - 1) (issueRewards env s)

/-- All per-ceremony maps of a ceremony key hold their default value and
its counters are zero. -/
def PurgedAt (s : State) (cc : CurrencyCeremony) : Prop :=
  (∀ i, s.participantRegistry cc i = 0) ∧
  (∀ a, s.participantIndex cc a = 0) ∧
  s.participantCount cc = 0 ∧
  (∀ m, s.meetupRegistry cc m = []) ∧
  (∀ a, s.meetupIndex cc a = 0) ∧
  s.meetupCount cc = 0 ∧
  (∀ i, s.attestationRegistry cc i = []) ∧
  (∀ a, s.attestationIndex cc a = 0) ∧
  s.attestationCount cc = 0 ∧
  (∀ a, s.meetupParticipantCountVote cc a = 0)

/-- The empty module state: every map at its default, nothing issued. -/
def baseState : State where
  participantRegistry := fun _ _ => 0
  participantIndex := fun _ _ => 0
  participantCount := fun _ => 0
  participantReputation := fun _ _ => Reputation.Unverified
  meetupRegistry := fun _ _ => []
  meetupIndex := fun _ _ => 0
  meetupCount := fun _ => 0
  attestationRegistry := fun _ _ => []
  attestationIndex := fun _ _ => 0
  attestationCount := fun _ => 0
  meetupParticipantCountVote := fun _ _ => 0
  issued := []

/-- A baseline collaborator environment: one community (id 0), permissive
geolocation and signature capabilities, an always-succeeding ledger. -/
def baseEnv : Env where
  currentPhase := CeremonyPhaseType.REGISTERING
  currentCeremonyIndex := 1
  currencyIdentifiers := [0]
  bootstrappers := fun _ => []
  isValidGeolocation := fun _ => true
  haversineDistance := fun _ _ => 0
  locations := fun _ => [⟨0, 0⟩]
  phaseDurationAttesting := 100
  nextPhaseTimestamp := 1000
  momentsPerDay := 360
  verifySigClaim := fun _ _ _ => true
  verifySigProof := fun _ _ _ => true
  issueOk := fun _ _ => true
  ceremonyReward := 7
  locationTolerance := 0
  timeTolerance := 0

/-- A two-member meetup state whose members both vote 5: the winning
bucket has only 2 votes, below the quorum of 3. -/
def lowQuorumState : State :=
  { baseState with
    meetupRegistry := upd2 baseState.meetupRegistry (0, 1) 1 [1, 2]
    meetupCount := upd1 baseState.meetupCount (0, 1) 1
    meetupParticipantCountVote := fun cc a =>
      if cc = (0, 1) ∧ (a = 1 ∨ a = 2) then 5 else 0 }

/-- A registration environment at ceremony index 5. -/
def regEnv : Env := { baseEnv with currentCeremonyIndex := 5 }

/-- A proof of attendance for ceremony 4 by attendee 9, presented by
prover 7. -/
def regProof : ProofOfAttendance :=
  { prover_public := 7
    ceremony_index := 4
    currency_identifier := 0
    attendee_public := 9
    attendee_signature := 0 }

/-- A state holding an unconsumed VerifiedUnlinked credential for
attendee 9 at ceremony 4 of community 0. -/
def regState : State :=
  { baseState with
    participantReputation :=
      upd2 baseState.participantReputation (0, 4) 9
        Reputation.VerifiedUnlinked }

/-- One register_participant call of a trace: the collaborator
environment at call time, the caller, the community and the optional
proof presented. -/
structure RegCall where
  env : Env
  sender : Nat
  cid : Nat
  proof : Option ProofOfAttendance

/-- Extrinsic dispatch of one registration call: the new state on
success, the old state on error (an erroring extrinsic writes nothing). -/
def applyRegCall (s : State) (c : RegCall) : State :=
  match registerParticipant c.env s c.sender c.cid c.proof with
  | .ok s' => s'
  | .error _ => s

/-- A sequence of registration calls applied in order. -/
def applyRegCalls (s : State) (l : List RegCall) : State :=
  l.foldl applyRegCall s

/-- The state after the successful proof-consuming registration of the
concrete C6 scenario. -/
def regSuccState : State :=
  match registerParticipant regEnv regState 7 0 (some regProof) with
  | .ok s => s
  | .error _ => regState

/-- A later plain registration call by another account. -/
def traceCall : RegCall :=
  { env := regEnv, sender := 8, cid := 0, proof := none }

/-- An attesting-phase environment for ceremony 1. -/
def attEnv : Env := { baseEnv with currentPhase := CeremonyPhaseType.ATTESTING }

/-- A registering-phase environment one ceremony later, as seen by the
reward ballot acting on ceremony 1. -/
def rewEnv : Env := { baseEnv with currentCeremonyIndex := 2 }

/-- A state with one assigned meetup of members 1, 2 and 3 for
ceremony 1 of community 0. -/
def attState : State :=
  { baseState with
    meetupRegistry := upd2 baseState.meetupRegistry (0, 1) 1 [1, 2, 3]
    meetupIndex := fun cc a =>
      if cc = (0, 1) ∧ (a = 1 ∨ a = 2 ∨ a = 3) then 1 else 0
    meetupCount := upd1 baseState.meetupCount (0, 1) 1 }

/-- The claim of attendance of `claimant` for meetup 1 of ceremony 1,
timed exactly at the computed meetup moment. -/
def mkClaim (claimant : Nat) : ClaimOfAttendance :=
  { claimant_public := claimant
    ceremony_index := 1
    currency_identifier := 0
    meetup_index := 1
    timestamp := 1260
    location := ⟨0, 0⟩
    number_of_participants_confirmed := 3 }

/-- The attestation of `witness` on `claimant`'s claim. -/
def attBy (witness claimant : Nat) : Attestation :=
  { claim := mkClaim claimant, signature := 0, public := witness }

/-- The state after member 1 submits the same valid attestation by
member 2 twice. -/
def dupState1 : State :=
  match registerAttestations attEnv attState 1 [attBy 2 1, attBy 2 1] with
  | .ok s => s
  | .error _ => attState

/-- The state after member 2 then submits one attestation by member 1. -/
def dupState2 : State :=
  match registerAttestations attEnv dupState1 2 [attBy 1 2] with
  | .ok s => s
  | .error _ => dupState1

/-- The state after member 3 then submits one attestation by member 1. -/
def dupState3 : State :=
  match registerAttestations attEnv dupState2 3 [attBy 1 3] with
  | .ok s => s
  | .error _ => dupState2

/-- A meetup of members 1, 2 and 3 who all vote a headcount of 10 and
hold mutually reciprocal two-witness bundles: the winning value is 10
with 3 votes, far more than the bundles' 2 witnesses. -/
def c1State : State :=
  { baseState with
    meetupRegistry := upd2 baseState.meetupRegistry (0, 1) 1 [1, 2, 3]
    meetupCount := upd1 baseState.meetupCount (0, 1) 1
    meetupParticipantCountVote := fun cc a =>
      if cc = (0, 1) ∧ (a = 1 ∨ a = 2 ∨ a = 3) then 10 else 0
    attestationIndex := fun cc a =>
      if cc = (0, 1) then
        (if a = 1 then 1 else if a = 2 then 2 else if a = 3 then 3 else 0)
      else 0
    attestationRegistry := fun cc i =>
      if cc = (0, 1) then
        (if i = 1 then [2, 3] else if i = 2 then [1, 3]
         else if i = 3 then [1, 2] else [])
      else []
    attestationCount := upd1 baseState.attestationCount (0, 1) 3 }

/-- The nonzero headcount votes of a meetup's members, in member order:
exactly the values the tally of ballot_meetup_n_votes processes. -/
def meetupVotes (s : State) (cid cindex m : Nat) : List Nat :=
  ((s.meetupRegistry (cid, cindex) m).map
    (fun p => s.meetupParticipantCountVote (cid, cindex) p)).filter
    (fun v => decide (0 < v))

/-- The first element of maximal count in a tally list: the head of the
stable descending-by-count sort. -/
def firstMax : List (Nat × Nat) → Nat × Nat
  | [] => (0, 0)
  | x :: l => if (firstMax l).2 ≤ x.2 then x else firstMax l

/-- The size of the largest vote bucket of a vote list. -/
def maxVoteCount (vs : List Nat) : Nat :=
  (vs.map (fun v => vs.count v)).foldr max 0

/-- The claim's tie-break winner, from the spec's words: the first vote
value encountered (in member-iteration order) whose bucket is maximal. -/
def specFirstEncounteredWinner (vs : List Nat) : Option Nat :=
  vs.find? (fun v => vs.count v = maxVoteCount vs)

/-- Invariant of the ballot tally fold after processing the vote prefix
`pref`: every bucket holds a value of `pref` with its exact occurrence
count, every value of `pref` has a bucket, and buckets are ordered by
strictly decreasing first-occurrence index (newest first, because new
values are prepended). -/
def TallyInv (pref : List Nat) (acc : List (Nat × Nat)) : Prop :=
  (∀ x ∈ acc, x.1 ∈ pref ∧ x.2 = pref.count x.1) ∧
  (∀ v ∈ pref, ∃ x ∈ acc, x.1 = v) ∧
  List.Pairwise (fun a b : Nat × Nat =>
    List.indexOf b.1 pref < List.indexOf a.1 pref) acc

/-- A six-member meetup where members 1-3 vote 4 and members 4-6 vote 5:
both buckets have 3 votes, tied at the maximum. -/
def c2State : State :=
  { baseState with
    meetupRegistry := upd2 baseState.meetupRegistry (0, 1) 1 [1, 2, 3, 4, 5, 6]
    meetupCount := upd1 baseState.meetupCount (0, 1) 1
    meetupParticipantCountVote := fun cc a =>
      if cc = (0, 1) ∧ 1 ≤ a ∧ a ≤ 3 then 4
      else if cc = (0, 1) ∧ 4 ≤ a ∧ a ≤ 6 then 5
      else 0 }

/-- Among positions s, s+1, ..., s+n-1, how many are congruent to j
modulo k: the number of round-robin items bucket j receives. -/
def countAssigned : Nat → Nat → Nat → Nat → Nat
  | 0, _, _, _ => 0
  | n + 1, s, j, k => (if s % k = j then 1 else 0) + countAssigned n (s + 1) j k

/-- The total number of accounts held across a meetup vector. -/
def sumLens (ms : List (List Nat)) : Nat := (ms.map List.length).sum

/-- The number of newbies the distribution loops of assign_meetups
actually place into meetups: the total size after newbie distribution
minus the reputables (who are all placed). -/
def newbiesPlaced (reps news : List Nat) : Nat :=
  sumLens (distributedMeetups reps news) - reps.length

/-- A registration population of 12 participants for community 0,
ceremony 1: accounts 1-9 are reputable, accounts 10-12 are newbies. -/
def c3State : State :=
  { baseState with
    participantCount := upd1 baseState.participantCount (0, 1) 12
    participantRegistry := fun cc i =>
      if cc = (0, 1) ∧ 1 ≤ i ∧ i ≤ 12 then i else 0
    participantReputation := fun cc a =>
      if cc = (0, 1) ∧ 1 ≤ a ∧ a ≤ 9 then Reputation.UnverifiedReputable
      else Reputation.Unverified }

/-! ### Lemmas and claim theorems -/

theorem purgeFor_reputation (k : Nat) (t : State)
    (c : Nat) :
    (purgeFor k t c).participantReputation = t.participantReputation := rfl

theorem foldl_purgeFor_reputation (l : List Nat)
    (k : Nat) (t : State) :
    (l.foldl (purgeFor k) t).participantReputation =
      t.participantReputation := by
  induction l generalizing t with
  | nil => rfl
  | cons c rest ih => exact (ih (purgeFor k t c)).trans rfl

theorem purgeFor_purged_self (k : Nat) (t : State)
    (c : Nat) : PurgedAt (purgeFor k t c) (c, k) := by
  refine ⟨?_, ?_, ?_, ?_, ?_, ?_, ?_, ?_, ?_, ?_⟩ <;>
    simp [purgeFor, clearAt2, upd1]

theorem purgeFor_purged_mono (k : Nat) (t : State)
    (c : Nat) (cc : CurrencyCeremony)
    (h : PurgedAt t cc) : PurgedAt (purgeFor k t c) cc := by
  obtain ⟨h1, h2, h3, h4, h5, h6, h7, h8, h9, h10⟩ := h
  refine ⟨?_, ?_, ?_, ?_, ?_, ?_, ?_, ?_, ?_, ?_⟩ <;>
    simp only [purgeFor, clearAt2, upd1] <;> intros <;> split <;> simp_all

theorem foldl_purgeFor_purged_pres (l : List Nat)
    (k : Nat) (t : State) (cc : CurrencyCeremony)
    (h : PurgedAt t cc) : PurgedAt (l.foldl (purgeFor k) t) cc := by
  induction l generalizing t with
  | nil => exact h
  | cons c rest ih => exact ih _ (purgeFor_purged_mono k t c cc h)

theorem foldl_purgeFor_purged_mem (l : List Nat)
    (k : Nat) (t : State) (c : Nat)
    (h : c ∈ l) : PurgedAt (l.foldl (purgeFor k) t) (c, k) := by
  induction l generalizing t with
  | nil => cases h
  | cons x rest ih =>
    rcases List.mem_cons.mp h with rfl | hm
    · exact foldl_purgeFor_purged_pres rest k _ _
        (purgeFor_purged_self k t c)
    · exact ih _ hm

/-- C9: after purge of ceremony index k, for every known community the
participant, meetup and attestation maps, reverse indices, counters and
headcount votes keyed by (community, k) are cleared or zero, while every
reputation entry is left unchanged. -/
theorem C9_purge_clears_keeps_reputation (env : Env)
    (k : Nat) (s : State) (cid : Nat)
    (h : cid ∈ env.currencyIdentifiers) :
    PurgedAt (purgeRegistry env k s) (cid, k) ∧
      (purgeRegistry env k s).participantReputation =
        s.participantReputation :=
  ⟨foldl_purgeFor_purged_mem env.currencyIdentifiers k s cid h,
   foldl_purgeFor_reputation env.currencyIdentifiers k s⟩

/-- C10: register_attestations does not deduplicate witnesses: a
submission containing the same valid attestation twice passes the
per-claim filter twice and stores the signer twice in the caller's
bundle, and each duplicate occurrence then counts separately toward the
reward ballot's witness-count and reciprocity thresholds, so member 1
is rewarded on the strength of a single distinct witness while members
2 and 3, whose bundles hold one entry each, are skipped. -/
theorem C10_duplicate_witnesses_counted :
    registerAttestations attEnv attState 1 [attBy 2 1, attBy 2 1] =
        .ok dupState1 ∧
      bundleOf dupState1 (0, 1) 1 = [2, 2] ∧
      (bundleOf dupState1 (0, 1) 1).count 2 = 2 ∧
      registerAttestations attEnv dupState1 2 [attBy 1 2] =
        .ok dupState2 ∧
      registerAttestations attEnv dupState2 3 [attBy 1 3] =
        .ok dupState3 ∧
      ballotMeetupNVotes dupState3 0 1 1 = some (3, 3) ∧
      (bundleOf dupState3 (0, 1) 1).length = 2 ∧
      reciprocalCount dupState3 (0, 1) 1 = 2 ∧
      (issueRewardsFor rewEnv 0 dupState3).issued = [(0, 1, 7)] :=
  ⟨rfl, by decide, by decide, rfl, rfl, by decide, by decide, by decide,
    by decide⟩

theorem rewardMember_maps (env : Env) (cid cindex v c : Nat) (t : State)
    (q : Nat) :
    (rewardMember env cid cindex v c t q).meetupParticipantCountVote =
        t.meetupParticipantCountVote ∧
      (rewardMember env cid cindex v c t q).attestationRegistry =
        t.attestationRegistry ∧
      (rewardMember env cid cindex v c t q).attestationIndex =
        t.attestationIndex ∧
      (rewardMember env cid cindex v c t q).meetupRegistry =
        t.meetupRegistry := by
  unfold rewardMember
  split
  · exact ⟨rfl, rfl, rfl, rfl⟩
  split
  · exact ⟨rfl, rfl, rfl, rfl⟩
  split
  · exact ⟨rfl, rfl, rfl, rfl⟩
  split
  · exact ⟨rfl, rfl, rfl, rfl⟩
  · exact ⟨rfl, rfl, rfl, rfl⟩

theorem rewardMember_issued_cases (env : Env) (cid cindex v c : Nat)
    (t : State) (q : Nat) :
    (rewardMember env cid cindex v c t q).issued = t.issued ∨
      ((rewardMember env cid cindex v c t q).issued =
          t.issued ++ [(cid, q, env.ceremonyReward)] ∧
        t.meetupParticipantCountVote (cid, cindex) q = v ∧
        c - 1 ≤ (bundleOf t (cid, cindex) q).length ∧
        c - 1 ≤ reciprocalCount t (cid, cindex) q) := by
  unfold rewardMember
  split
  · left; rfl
  rename_i hvote
  split
  · left; rfl
  rename_i hlen
  split
  · left; rfl
  rename_i hrec
  split
  · right
    push_neg at hlen
    refine ⟨rfl, not_not.mp hvote, hlen.1, ?_⟩
    omega
  · left; rfl

theorem rewardMember_rep_other (env : Env) (cid cindex v c : Nat)
    (t : State) (q p : Nat) (hne : q ≠ p) :
    (rewardMember env cid cindex v c t q).participantReputation
        (cid, cindex) p =
      t.participantReputation (cid, cindex) p := by
  have hne' : p ≠ q := fun hh => hne hh.symm
  unfold rewardMember
  split
  · rfl
  split
  · rfl
  split
  · rfl
  split
  · simp [upd2, hne']
  · rfl

theorem rewardMember_skip_self (env : Env) (cid cindex v c : Nat)
    (t : State) (p : Nat)
    (hfail : (bundleOf t (cid, cindex) p).length < c - 1 ∨
      reciprocalCount t (cid, cindex) p < c - 1) :
    rewardMember env cid cindex v c t p = t := by
  unfold rewardMember
  split
  · rfl
  split
  · rfl
  split
  · rfl
  split
  · rename_i hvote hlen hrec hok
    push_neg at hlen
    rcases hfail with hf | hf
    · omega
    · omega
  · rfl

theorem foldl_rewardMember_maps (env : Env) (cid cindex v c : Nat)
    (ps : List Nat) (t : State) :
    (ps.foldl (rewardMember env cid cindex v c) t).meetupParticipantCountVote
        = t.meetupParticipantCountVote ∧
      (ps.foldl (rewardMember env cid cindex v c) t).attestationRegistry =
        t.attestationRegistry ∧
      (ps.foldl (rewardMember env cid cindex v c) t).attestationIndex =
        t.attestationIndex ∧
      (ps.foldl (rewardMember env cid cindex v c) t).meetupRegistry =
        t.meetupRegistry := by
  induction ps generalizing t with
  | nil => exact ⟨rfl, rfl, rfl, rfl⟩
  | cons q rest ih =>
    obtain ⟨s1, s2, s3, s4⟩ := rewardMember_maps env cid cindex v c t q
    obtain ⟨i1, i2, i3, i4⟩ := ih (rewardMember env cid cindex v c t q)
    exact ⟨i1.trans s1, i2.trans s2, i3.trans s3, i4.trans s4⟩

theorem bundleOf_eq_of_maps (t t' : State) (cc : CurrencyCeremony) (p : Nat)
    (h1 : t'.attestationRegistry = t.attestationRegistry)
    (h2 : t'.attestationIndex = t.attestationIndex) :
    bundleOf t' cc p = bundleOf t cc p := by
  unfold bundleOf
  rw [h1, h2]

theorem reciprocalCount_eq_of_maps (t t' : State) (cc : CurrencyCeremony)
    (p : Nat)
    (h1 : t'.attestationRegistry = t.attestationRegistry)
    (h2 : t'.attestationIndex = t.attestationIndex) :
    reciprocalCount t' cc p = reciprocalCount t cc p := by
  unfold reciprocalCount
  rw [bundleOf_eq_of_maps t t' cc p h1 h2]
  apply List.countP_congr
  intro w _
  rw [bundleOf_eq_of_maps t t' cc w h1 h2]

theorem foldl_rewardMember_issued_mem (env : Env) (cid cindex v c : Nat)
    (ps : List Nat) (t : State) (entry : Nat × Nat × Nat)
    (h : entry ∈ (ps.foldl (rewardMember env cid cindex v c) t).issued) :
    entry ∈ t.issued ∨
      ∃ q ∈ ps, entry = (cid, q, env.ceremonyReward) ∧
        t.meetupParticipantCountVote (cid, cindex) q = v ∧
        c - 1 ≤ (bundleOf t (cid, cindex) q).length ∧
        c - 1 ≤ reciprocalCount t (cid, cindex) q := by
  induction ps generalizing t with
  | nil => exact Or.inl h
  | cons q rest ih =>
    obtain ⟨m1, m2, m3, m4⟩ := rewardMember_maps env cid cindex v c t q
    rcases ih (rewardMember env cid cindex v c t q) h with hmem | hex
    · rcases rewardMember_issued_cases env cid cindex v c t q with
        hcase | ⟨heq, hv, hb, hr⟩
      · rw [hcase] at hmem
        exact Or.inl hmem
      · rw [heq] at hmem
        rcases List.mem_append.mp hmem with hm | hm
        · exact Or.inl hm
        · right
          refine ⟨q, List.mem_cons_self q rest, List.mem_singleton.mp hm,
            hv, hb, hr⟩
    · obtain ⟨q', hq', heq, hv, hb, hr⟩ := hex
      right
      refine ⟨q', List.mem_cons_of_mem q hq', heq, ?_, ?_, ?_⟩
      · rw [← congrFun (congrFun m1 (cid, cindex)) q']
        exact hv
      · rw [← bundleOf_eq_of_maps t _ (cid, cindex) q' m2 m3]
        exact hb
      · rw [← reciprocalCount_eq_of_maps t _ (cid, cindex) q' m2 m3]
        exact hr

theorem foldl_rewardMember_skip (env : Env) (cid cindex v c : Nat)
    (ps : List Nat) (t : State) (p : Nat)
    (hfail : (bundleOf t (cid, cindex) p).length < c - 1 ∨
      reciprocalCount t (cid, cindex) p < c - 1)
    (hni : ∀ amt, (cid, p, amt) ∉ t.issued) :
    (∀ amt, (cid, p, amt) ∉
        (ps.foldl (rewardMember env cid cindex v c) t).issued) ∧
      (ps.foldl (rewardMember env cid cindex v c) t).participantReputation
          (cid, cindex) p =
        t.participantReputation (cid, cindex) p := by
  induction ps generalizing t with
  | nil => exact ⟨hni, rfl⟩
  | cons q rest ih =>
    obtain ⟨m1, m2, m3, m4⟩ := rewardMember_maps env cid cindex v c t q
    have hfail' : (bundleOf (rewardMember env cid cindex v c t q)
          (cid, cindex) p).length < c - 1 ∨
        reciprocalCount (rewardMember env cid cindex v c t q)
          (cid, cindex) p < c - 1 := by
      rw [bundleOf_eq_of_maps t _ (cid, cindex) p m2 m3,
        reciprocalCount_eq_of_maps t _ (cid, cindex) p m2 m3]
      exact hfail
    rw [List.foldl_cons]
    by_cases hq : q = p
    · subst hq
      rw [rewardMember_skip_self env cid cindex v c t q hfail]
      exact ih t hfail hni
    · have hni' : ∀ amt, (cid, p, amt) ∉
          (rewardMember env cid cindex v c t q).issued := by
        intro amt hmem
        rcases rewardMember_issued_cases env cid cindex v c t q with
          hcase | ⟨heq, _, _, _⟩
        · rw [hcase] at hmem
          exact hni amt hmem
        · rw [heq] at hmem
          rcases List.mem_append.mp hmem with hm | hm
          · exact hni amt hm
          · have := List.mem_singleton.mp hm
            rw [Prod.mk.injEq, Prod.mk.injEq] at this
            exact hq (this.2.1.symm)
      obtain ⟨ha, hb⟩ := ih (rewardMember env cid cindex v c t q)
        hfail' hni'
      refine ⟨ha, hb.trans ?_⟩
      exact rewardMember_rep_other env cid cindex v c t q p hq

/-- C1 fails on the code: with three members voting headcount 10, the
winning value is 10 with 3 votes; member 1 holds only 2 witnesses, far
fewer than winning value minus 1 = 9, yet is rewarded (the code compares
against the winning bucket's vote count minus 1, not the winning value
minus 1). -/
theorem C1_counterexample :
    ballotMeetupNVotes c1State 0 1 1 = some (10, 3) ∧
      (bundleOf c1State (0, 1) 1).length = 2 ∧
      ¬ 10 - 1 ≤ (bundleOf c1State (0, 1) 1).length ∧
      (0, 1, 7) ∈ (issueRewardsMeetup baseEnv 0 1 1 c1State).issued :=
  ⟨by decide, by decide, by decide, by decide⟩

/-- C1 amended: in the reward ballot, for a meetup whose ballot succeeds
with winning value v carried by c votes, a member is rewarded only if
their own vote equals v, their bundle has at least (c − 1) witnesses and
at least (c − 1) of those witness entries list the member back — the
thresholds are the winning bucket's vote count minus one, not the
winning value minus one; a member failing either threshold is skipped
with no reward and no reputation change. -/
theorem C1_reward_thresholds_amended (env : Env) (cid cindex m : Nat)
    (s : State) (v c : Nat)
    (hb : ballotMeetupNVotes s cid cindex m = some (v, c))
    (hiss : s.issued = []) (p : Nat) :
    (∀ amt, (cid, p, amt) ∈ (issueRewardsMeetup env cid cindex m s).issued →
        s.meetupParticipantCountVote (cid, cindex) p = v ∧
          c - 1 ≤ (bundleOf s (cid, cindex) p).length ∧
          c - 1 ≤ reciprocalCount s (cid, cindex) p) ∧
      (s.meetupParticipantCountVote (cid, cindex) p = v →
        ¬ (c - 1 ≤ (bundleOf s (cid, cindex) p).length ∧
            c - 1 ≤ reciprocalCount s (cid, cindex) p) →
        (∀ amt,
          (cid, p, amt) ∉ (issueRewardsMeetup env cid cindex m s).issued) ∧
          (issueRewardsMeetup env cid cindex m s).participantReputation
              (cid, cindex) p =
            s.participantReputation (cid, cindex) p) := by
  have hred : issueRewardsMeetup env cid cindex m s =
      (s.meetupRegistry (cid, cindex) m).foldl
        (rewardMember env cid cindex v c) s := by
    unfold issueRewardsMeetup
    rw [hb]
  constructor
  · intro amt hmem
    rw [hred] at hmem
    rcases foldl_rewardMember_issued_mem env cid cindex v c
        (s.meetupRegistry (cid, cindex) m) s (cid, p, amt) hmem with
      hin | ⟨q, _, heq, hv, hbl, hr⟩
    · rw [hiss] at hin
      cases hin
    · rw [Prod.mk.injEq, Prod.mk.injEq] at heq
      obtain ⟨-, hpq, -⟩ := heq
      subst hpq
      exact ⟨hv, hbl, hr⟩
  · intro _ hfail
    have hfail' : (bundleOf s (cid, cindex) p).length < c - 1 ∨
        reciprocalCount s (cid, cindex) p < c - 1 := by
      rcases Nat.lt_or_ge ((bundleOf s (cid, cindex) p).length) (c - 1) with
        hlt | hge
      · exact Or.inl hlt
      · rcases Nat.lt_or_ge (reciprocalCount s (cid, cindex) p) (c - 1) with
          hlt2 | hge2
        · exact Or.inr hlt2
        · exact absurd ⟨hge, hge2⟩ hfail
    have hni : ∀ amt, (cid, p, amt) ∉ s.issued := by
      intro amt hmem
      rw [hiss] at hmem
      cases hmem
    rw [hred]
    exact foldl_rewardMember_skip env cid cindex v c
      (s.meetupRegistry (cid, cindex) m) s p hfail' hni

/-- Witness for the amended C1 at the concrete three-member meetup. -/
theorem C1_reward_thresholds_amended_witness :
    (ballotMeetupNVotes c1State 0 1 1 = some (10, 3) ∧
      c1State.issued = []) ∧
    ((∀ amt, (0, 1, amt) ∈
          (issueRewardsMeetup baseEnv 0 1 1 c1State).issued →
        c1State.meetupParticipantCountVote (0, 1) 1 = 10 ∧
          3 - 1 ≤ (bundleOf c1State (0, 1) 1).length ∧
          3 - 1 ≤ reciprocalCount c1State (0, 1) 1) ∧
      (c1State.meetupParticipantCountVote (0, 1) 1 = 10 →
        ¬ (3 - 1 ≤ (bundleOf c1State (0, 1) 1).length ∧
            3 - 1 ≤ reciprocalCount c1State (0, 1) 1) →
        (∀ amt, (0, 1, amt) ∉
            (issueRewardsMeetup baseEnv 0 1 1 c1State).issued) ∧
          (issueRewardsMeetup baseEnv 0 1 1 c1State).participantReputation
              (0, 1) 1 =
            c1State.participantReputation (0, 1) 1)) :=
  ⟨⟨by decide, rfl⟩,
    C1_reward_thresholds_amended baseEnv 0 1 1 c1State 10 3 (by decide)
      rfl 1⟩

theorem bumpVote_eq_none (v : Nat) (acc : List (Nat × Nat)) :
    bumpVote v acc = none ↔ ∀ x ∈ acc, x.1 ≠ v := by
  induction acc with
  | nil => simp [bumpVote]
  | cons y rest ih =>
    obtain ⟨n, c⟩ := y
    simp only [bumpVote]
    split
    · rename_i hn
      subst hn
      simp
    · rename_i hn
      rw [Option.map_eq_none']
      rw [ih]
      constructor
      · intro hall x hx
        rcases List.mem_cons.mp hx with rfl | hmem
        · exact hn
        · exact hall x hmem
      · intro hall x hx
        exact hall x (List.mem_cons_of_mem _ hx)

theorem bumpVote_some_decomp (v : Nat) :
    ∀ (acc acc' : List (Nat × Nat)), bumpVote v acc = some acc' →
    ∃ l1 c l2, acc = l1 ++ (v, c) :: l2 ∧ acc' = l1 ++ (v, c + 1) :: l2 ∧
      ∀ x ∈ l1, x.1 ≠ v := by
  intro acc
  induction acc with
  | nil =>
    intro acc' h
    simp [bumpVote] at h
  | cons y rest ih =>
    intro acc' h
    obtain ⟨n, c⟩ := y
    simp only [bumpVote] at h
    split at h
    · rename_i hn
      subst hn
      injection h with h
      exact ⟨[], c, rest, by simp, by rw [← h]; simp, by simp⟩
    · rename_i hn
      cases hrest : bumpVote v rest with
      | none =>
        rw [hrest] at h
        simp at h
      | some acc'' =>
        rw [hrest] at h
        simp only [Option.map_some', Option.some.injEq] at h
        obtain ⟨l1, c', l2, he1, he2, hl1⟩ := ih acc'' hrest
        refine ⟨(n, c) :: l1, c', l2, by rw [he1]; rfl, ?_, ?_⟩
        · rw [← h, he2]
          rfl
        · intro x hx
          rcases List.mem_cons.mp hx with rfl | hmem
          · exact hn
          · exact hl1 x hmem

theorem firstMax_mem : ∀ (l : List (Nat × Nat)), l ≠ [] → firstMax l ∈ l := by
  intro l
  induction l with
  | nil => intro h; cases h rfl
  | cons x rest ih =>
    intro _
    by_cases hr : rest = []
    · subst hr
      simp [firstMax]
    · simp only [firstMax]
      split
      · exact List.mem_cons_self x rest
      · exact List.mem_cons_of_mem x (ih hr)

theorem firstMax_le : ∀ (l : List (Nat × Nat)), ∀ x ∈ l,
    x.2 ≤ (firstMax l).2 := by
  intro l
  induction l with
  | nil => intro x hx; cases hx
  | cons y rest ih =>
    intro x hx
    simp only [firstMax]
    rcases List.mem_cons.mp hx with rfl | hmem
    · split
      · exact Nat.le_refl _
      · rename_i hcond
        exact Nat.le_of_lt (Nat.lt_of_not_le hcond)
    · split
      · rename_i hcond
        exact Nat.le_trans (ih x hmem) hcond
      · exact ih x hmem

theorem firstMax_rel (R : Nat × Nat → Nat × Nat → Prop) :
    ∀ (l : List (Nat × Nat)), List.Pairwise R l →
    ∀ x ∈ l, x.2 = (firstMax l).2 → x ≠ firstMax l → R (firstMax l) x := by
  intro l
  induction l with
  | nil => intro _ x hx; cases hx
  | cons y rest ih =>
    intro hpw x hx hsnd hne
    obtain ⟨hy, hpw'⟩ := List.pairwise_cons.mp hpw
    simp only [firstMax] at hsnd hne ⊢
    by_cases hcond : (firstMax rest).2 ≤ y.2
    · rw [if_pos hcond] at hsnd hne ⊢
      rcases List.mem_cons.mp hx with rfl | hmem
      · exact absurd rfl hne
      · exact hy x hmem
    · rw [if_neg hcond] at hsnd hne ⊢
      rcases List.mem_cons.mp hx with rfl | hmem
      · rw [hsnd] at hcond
        exact absurd (Nat.le_refl _) hcond
      · exact ih hpw' x hmem hsnd hne

theorem sortDescByCount_head : ∀ (l : List (Nat × Nat)), l ≠ [] →
    ∃ t, sortDescByCount l = firstMax l :: t := by
  intro l
  induction l with
  | nil => intro h; cases h rfl
  | cons x rest ih =>
    intro _
    by_cases hr : rest = []
    · subst hr
      exact ⟨[], by simp [sortDescByCount, insertDesc, firstMax]⟩
    · obtain ⟨t', ht'⟩ := ih hr
      simp only [sortDescByCount, firstMax]
      rw [ht']
      simp only [insertDesc]
      split
      · exact ⟨firstMax rest :: t', rfl⟩
      · exact ⟨insertDesc x t', rfl⟩

theorem foldl_tallyStep_filter : ∀ (l : List Nat) (acc : List (Nat × Nat)),
    l.foldl tallyStep acc =
      (l.filter (fun v => decide (0 < v))).foldl tallyStep acc := by
  intro l
  induction l with
  | nil => intro acc; rfl
  | cons v rest ih =>
    intro acc
    by_cases hv : 0 < v
    · rw [List.foldl_cons, ih (tallyStep acc v)]
      have : (v :: rest).filter (fun v => decide (0 < v)) =
          v :: rest.filter (fun v => decide (0 < v)) := by
        simp [List.filter_cons, hv]
      rw [this, List.foldl_cons]
    · have hstep : tallyStep acc v = acc := by
        unfold tallyStep
        rw [if_neg hv]
      rw [List.foldl_cons, hstep, ih acc]
      have : (v :: rest).filter (fun v => decide (0 < v)) =
          rest.filter (fun v => decide (0 < v)) := by
        simp [List.filter_cons, hv]
      rw [this]

theorem tallyOf_eq_votes (s : State) (cid cindex m : Nat) :
    tallyOf s (cid, cindex) (s.meetupRegistry (cid, cindex) m) =
      (meetupVotes s cid cindex m).foldl tallyStep [] := by
  unfold tallyOf meetupVotes
  rw [← foldl_tallyStep_filter]
  rw [List.foldl_map]

theorem tallyStep_inv (pref : List Nat) (acc : List (Nat × Nat)) (v : Nat)
    (hv : 0 < v) (hinv : TallyInv pref acc) :
    TallyInv (pref ++ [v]) (tallyStep acc v) := by
  obtain ⟨hcount, hcover, hpw⟩ := hinv
  unfold tallyStep
  rw [if_pos hv]
  cases hbv : bumpVote v acc with
  | none =>
    have hnotin : ∀ x ∈ acc, x.1 ≠ v := (bumpVote_eq_none v acc).mp hbv
    have hvpref : v ∉ pref := by
      intro hvp
      obtain ⟨x, hx, hx1⟩ := hcover v hvp
      exact hnotin x hx hx1
    refine ⟨?_, ?_, ?_⟩
    · intro x hx
      rcases List.mem_cons.mp hx with rfl | hmem
      · refine ⟨by simp, ?_⟩
        rw [List.count_append, List.count_eq_zero.mpr hvpref]
        simp
      · obtain ⟨hm, hc⟩ := hcount x hmem
        refine ⟨List.mem_append_left _ hm, ?_⟩
        rw [List.count_append]
        have h0 : List.count x.1 [v] = 0 := by
          simp [List.count_singleton', Ne.symm (hnotin x hmem)]
        omega
    · intro w hw
      rcases List.mem_append.mp hw with hw | hw
      · obtain ⟨x, hx, hx1⟩ := hcover w hw
        exact ⟨x, List.mem_cons_of_mem _ hx, hx1⟩
      · rw [List.mem_singleton] at hw
        subst hw
        exact ⟨(w, 1), List.mem_cons_self _ _, rfl⟩
    · rw [List.pairwise_cons]
      constructor
      · intro x hx
        have hm := (hcount x hx).1
        show List.indexOf x.1 (pref ++ [v]) <
          List.indexOf v (pref ++ [v])
        rw [List.indexOf_append_of_mem hm,
          List.indexOf_append_of_not_mem hvpref]
        have hz : List.indexOf v [v] = 0 := by simp
        rw [hz, Nat.add_zero]
        exact List.indexOf_lt_length.mpr hm
      · refine List.Pairwise.imp_of_mem ?_ hpw
        intro a b ha hb hrel
        rw [List.indexOf_append_of_mem (hcount a ha).1,
          List.indexOf_append_of_mem (hcount b hb).1]
        exact hrel
  | some acc' =>
    obtain ⟨l1, c, l2, he1, he2, hl1⟩ := bumpVote_some_decomp v acc acc' hbv
    subst he1
    subst he2
    have hvcMem : ((v, c) : Nat × Nat) ∈ l1 ++ (v, c) :: l2 :=
      List.mem_append_right _ (List.mem_cons_self _ _)
    have hvpref : v ∈ pref := (hcount (v, c) hvcMem).1
    have hcv : c = pref.count v := (hcount (v, c) hvcMem).2
    have hl2 : ∀ x ∈ l2, x.1 ≠ v := by
      intro x hx hx1
      rw [List.pairwise_append] at hpw
      obtain ⟨-, hpw2, -⟩ := hpw
      obtain ⟨hvrel, -⟩ := List.pairwise_cons.mp hpw2
      have := hvrel x hx
      rw [hx1] at this
      exact Nat.lt_irrefl _ this
    have hcpres : ∀ (w : Nat), w ≠ v →
        (pref ++ [v]).count w = pref.count w := by
      intro w hw
      rw [List.count_append]
      simp [List.count_singleton', Ne.symm hw]
    have hcv' : (pref ++ [v]).count v = pref.count v + 1 := by
      rw [List.count_append]
      simp
    refine ⟨?_, ?_, ?_⟩
    · intro x hx
      rcases List.mem_append.mp hx with hmem | hmem
      · have hxacc : x ∈ l1 ++ (v, c) :: l2 := List.mem_append_left _ hmem
        obtain ⟨hm, hc⟩ := hcount x hxacc
        exact ⟨List.mem_append_left _ hm,
          by rw [hcpres x.1 (hl1 x hmem), ← hc]⟩
      · rcases List.mem_cons.mp hmem with rfl | hmem2
        · refine ⟨List.mem_append_left _ hvpref, ?_⟩
          show c + 1 = (pref ++ [v]).count v
          rw [hcv', ← hcv]
        · have hxacc : x ∈ l1 ++ (v, c) :: l2 :=
            List.mem_append_right _ (List.mem_cons_of_mem _ hmem2)
          obtain ⟨hm, hc⟩ := hcount x hxacc
          exact ⟨List.mem_append_left _ hm,
            by rw [hcpres x.1 (hl2 x hmem2), ← hc]⟩
    · intro w hw
      rcases List.mem_append.mp hw with hw | hw
      · obtain ⟨x, hx, hx1⟩ := hcover w hw
        rcases List.mem_append.mp hx with hxm | hxm
        · exact ⟨x, List.mem_append_left _ hxm, hx1⟩
        · rcases List.mem_cons.mp hxm with rfl | hxm2
          · exact ⟨(v, c + 1),
              List.mem_append_right _ (List.mem_cons_self _ _), hx1⟩
          · exact ⟨x,
              List.mem_append_right _ (List.mem_cons_of_mem _ hxm2), hx1⟩
      · rw [List.mem_singleton] at hw
        subst hw
        exact ⟨(w, c + 1),
          List.mem_append_right _ (List.mem_cons_self _ _), rfl⟩
    · have hpw' : List.Pairwise (fun a b : Nat × Nat =>
          List.indexOf b.1 (pref ++ [v]) < List.indexOf a.1 (pref ++ [v]))
          (l1 ++ (v, c) :: l2) := by
        refine List.Pairwise.imp_of_mem ?_ hpw
        intro a b ha hb hrel
        rw [List.indexOf_append_of_mem (hcount a ha).1,
          List.indexOf_append_of_mem (hcount b hb).1]
        exact hrel
      rw [List.pairwise_append] at hpw' ⊢
      obtain ⟨h1, h2, h12⟩ := hpw'
      rw [List.pairwise_cons] at h2 ⊢
      refine ⟨h1, ⟨h2.1, h2.2⟩, ?_⟩
      intro a ha b hb
      rcases List.mem_cons.mp hb with rfl | hb2
      · exact h12 a ha (v, c) (List.mem_cons_self _ _)
      · exact h12 a ha b (List.mem_cons_of_mem _ hb2)

theorem tally_foldl_inv : ∀ (vs pref : List Nat) (acc : List (Nat × Nat)),
    (∀ v ∈ vs, 0 < v) → TallyInv pref acc →
    TallyInv (pref ++ vs) (vs.foldl tallyStep acc) := by
  intro vs
  induction vs with
  | nil =>
    intro pref acc _ h
    simpa using h
  | cons v rest ih =>
    intro pref acc hpos hinv
    have h1 := tallyStep_inv pref acc v (hpos v (List.mem_cons_self _ _))
      hinv
    have h2 := ih (pref ++ [v]) (tallyStep acc v)
      (fun w hw => hpos w (List.mem_cons_of_mem _ hw)) h1
    rw [List.foldl_cons]
    have hap : pref ++ v :: rest = (pref ++ [v]) ++ rest := by simp
    rw [hap]
    exact h2

theorem tallyInv_votes (vs : List Nat) (hpos : ∀ v ∈ vs, 0 < v) :
    TallyInv vs (vs.foldl tallyStep []) := by
  have h := tally_foldl_inv vs [] [] hpos
    ⟨by simp, by simp, List.Pairwise.nil⟩
  simpa using h

theorem ballot_eq_some_elim (s : State) (cid cindex m v c : Nat)
    (hb : ballotMeetupNVotes s cid cindex m = some (v, c)) :
    firstMax (tallyOf s (cid, cindex)
        (s.meetupRegistry (cid, cindex) m)) = (v, c) ∧
      tallyOf s (cid, cindex) (s.meetupRegistry (cid, cindex) m) ≠ [] ∧
      3 ≤ c := by
  simp only [ballotMeetupNVotes] at hb
  rcases hsc : sortDescByCount (tallyOf s (cid, cindex)
      (s.meetupRegistry (cid, cindex) m)) with _ | ⟨top, rest⟩
  · rw [hsc] at hb
    cases hb
  · rw [hsc] at hb
    have hb' : (if top.2 < 3 then (none : Option (Nat × Nat))
        else some top) = some (v, c) := hb
    by_cases hlt : top.2 < 3
    · rw [if_pos hlt] at hb'
      cases hb'
    · rw [if_neg hlt] at hb'
      injection hb' with hb'
      subst hb' 
      have hne : tallyOf s (cid, cindex)
          (s.meetupRegistry (cid, cindex) m) ≠ [] := by
        intro h0
        rw [h0] at hsc
        simp [sortDescByCount] at hsc
      obtain ⟨t, ht⟩ := sortDescByCount_head _ hne
      rw [ht] at hsc
      injection hsc with hsc1 hsc2
      refine ⟨hsc1, hne, ?_⟩
      exact Nat.le_of_not_lt hlt

/-- C2 fails on the code: with member votes [4,4,4,5,5,5] both buckets
are tied at 3 votes; the first value encountered in tally insertion
order is 4, but the ballot returns 5, because new values are prepended
to the tally and the stable sort keeps the prepended (most recent)
value first among ties. -/
theorem C2_counterexample :
    ballotMeetupNVotes c2State 0 1 1 = some (5, 3) ∧
      specFirstEncounteredWinner (meetupVotes c2State 0 1 1) = some 4 ∧
      maxVoteCount (meetupVotes c2State 0 1 1) = 3 ∧
      (5 : Nat) ≠ 4 :=
  ⟨by decide, by decide, by decide, by decide⟩

/-- C2 amended: whenever the ballot succeeds with winning pair (v, c),
v is a vote value whose bucket size c is maximal, and among tied maximal
buckets v is the value whose first occurrence in member-iteration order
is the LATEST (every other tied value first occurs strictly earlier) —
the tie-break favours the most recently first-encountered value, not the
first-encountered one. -/
theorem C2_tie_break_amended (s : State) (cid cindex m v c : Nat)
    (hb : ballotMeetupNVotes s cid cindex m = some (v, c)) :
    v ∈ meetupVotes s cid cindex m ∧
      c = (meetupVotes s cid cindex m).count v ∧
      (∀ w ∈ meetupVotes s cid cindex m,
        (meetupVotes s cid cindex m).count w ≤ c) ∧
      (∀ w ∈ meetupVotes s cid cindex m,
        (meetupVotes s cid cindex m).count w = c → w ≠ v →
        List.indexOf w (meetupVotes s cid cindex m) <
          List.indexOf v (meetupVotes s cid cindex m)) := by
  obtain ⟨hfm, hne, h3⟩ := ballot_eq_some_elim s cid cindex m v c hb
  have hpos : ∀ w ∈ meetupVotes s cid cindex m, 0 < w := by
    intro w hw
    unfold meetupVotes at hw
    have := List.of_mem_filter hw
    simpa using this
  have htally := tallyOf_eq_votes s cid cindex m
  rw [htally] at hfm hne
  obtain ⟨hcount, hcover, hpw⟩ :=
    tallyInv_votes (meetupVotes s cid cindex m) hpos
  have hfmem := firstMax_mem _ hne
  rw [hfm] at hfmem
  obtain ⟨hvmem, hvcount⟩ := hcount (v, c) hfmem
  refine ⟨hvmem, hvcount, ?_, ?_⟩
  · intro w hw
    obtain ⟨x, hx, hx1⟩ := hcover w hw
    have hle := firstMax_le _ x hx
    rw [hfm] at hle
    have hxw : x.2 = (meetupVotes s cid cindex m).count w := by
      rw [(hcount x hx).2, hx1]
    omega
  · intro w hw hwc hwv
    obtain ⟨x, hx, hx1⟩ := hcover w hw
    have hx2 : x.2 = c := by
      rw [(hcount x hx).2, hx1, hwc]
    have hxne : x ≠ (v, c) := by
      intro hcontra
      rw [hcontra] at hx1
      exact hwv hx1.symm
    have hrel := firstMax_rel _ _ hpw x hx
      (by rw [hfm]; exact hx2) (by rw [hfm]; exact hxne)
    rw [hfm] at hrel
    rw [hx1] at hrel
    exact hrel

/-- Witness for the amended C2 at the tied concrete meetup. -/
theorem C2_tie_break_amended_witness :
    ballotMeetupNVotes c2State 0 1 1 = some (5, 3) ∧
      (5 ∈ meetupVotes c2State 0 1 1 ∧
        3 = (meetupVotes c2State 0 1 1).count 5 ∧
        (∀ w ∈ meetupVotes c2State 0 1 1,
          (meetupVotes c2State 0 1 1).count w ≤ 3) ∧
        (∀ w ∈ meetupVotes c2State 0 1 1,
          (meetupVotes c2State 0 1 1).count w = 3 → w ≠ 5 →
          List.indexOf w (meetupVotes c2State 0 1 1) <
            List.indexOf 5 (meetupVotes c2State 0 1 1))) :=
  ⟨by decide, C2_tie_break_amended c2State 0 1 1 5 3 (by decide)⟩

theorem getD_set_self (l : List (List Nat)) (i : Nat) (a d : List Nat)
    (h : i < l.length) : (l.set i a).getD i d = a := by
  simp [List.getD, List.getElem?_set_self', h]

theorem getD_set_ne (l : List (List Nat)) (i j : Nat) (a d : List Nat)
    (h : j ≠ i) : (l.set i a).getD j d = l.getD j d := by
  simp [List.getD, List.getElem?_set_ne h.symm]

theorem getDN_set_self (l : List Nat) (i : Nat) (a d : Nat)
    (h : i < l.length) : (l.set i a).getD i d = a := by
  simp [List.getD, List.getElem?_set_self', h]

theorem getDN_set_ne (l : List Nat) (i j : Nat) (a d : Nat)
    (h : j ≠ i) : (l.set i a).getD j d = l.getD j d := by
  simp [List.getD, List.getElem?_set_ne h.symm]

theorem getD_replicate_nil (k j : Nat) (d : List Nat) (h : j < k) :
    (List.replicate k ([] : List Nat)).getD j d = [] := by
  simp [List.getD, List.getElem?_replicate, h]

theorem getDN_replicate_zero (k j : Nat) (d : Nat) (h : j < k) :
    (List.replicate k (0 : Nat)).getD j d = 0 := by
  simp [List.getD, List.getElem?_replicate, h]

theorem getD_mem (ms : List (List Nat)) (j : Nat) (h : j < ms.length) :
    ms.getD j [] ∈ ms := by
  rw [List.getD_eq_getElem _ _ h]
  exact List.getElem_mem h

theorem countAssigned_shift : ∀ (n s j k : Nat),
    countAssigned n (s + k) j k = countAssigned n s j k := by
  intro n
  induction n with
  | zero => intro s j k; rfl
  | succ n ih =>
    intro s j k
    show (if (s + k) % k = j then 1 else 0) +
        countAssigned n (s + k + 1) j k =
      (if s % k = j then 1 else 0) + countAssigned n (s + 1) j k
    rw [Nat.add_mod_right]
    have hc : s + k + 1 = s + 1 + k := by omega
    rw [hc, ih (s + 1) j k]

theorem countAssigned_split : ∀ (a b s j k : Nat),
    countAssigned (a + b) s j k =
      countAssigned a s j k + countAssigned b (s + a) j k := by
  intro a
  induction a with
  | zero =>
    intro b s j k
    simp [countAssigned]
  | succ a ih =>
    intro b s j k
    have h1 : a + 1 + b = (a + b) + 1 := by omega
    rw [h1]
    show (if s % k = j then 1 else 0) + countAssigned (a + b) (s + 1) j k =
      ((if s % k = j then 1 else 0) + countAssigned a (s + 1) j k) +
        countAssigned b (s + (a + 1)) j k
    rw [ih b (s + 1) j k]
    have h2 : s + 1 + a = s + (a + 1) := by omega
    rw [h2]
    omega

theorem countAssigned_pos_of_hit : ∀ (n s j k t : Nat), t < n →
    (s + t) % k = j → 1 ≤ countAssigned n s j k := by
  intro n
  induction n with
  | zero => intro s j k t ht; omega
  | succ n ih =>
    intro s j k t ht hhit
    show 1 ≤ (if s % k = j then 1 else 0) + countAssigned n (s + 1) j k
    rcases Nat.eq_zero_or_pos t with rfl | htpos
    · rw [Nat.add_zero] at hhit
      rw [if_pos hhit]
      omega
    · have h1 : s + 1 + (t - 1) = s + t := by omega
      have := ih (s + 1) j k (t - 1) (by omega) (by rw [h1]; exact hhit)
      omega

theorem countAssigned_window_pos (k s j : Nat) (hk : 0 < k) (hj : j < k) :
    1 ≤ countAssigned k s j k := by
  have hd : s % k < k := Nat.mod_lt s hk
  have hsq : s = k * (s / k) + s % k := (Nat.div_add_mod s k).symm
  by_cases hle : s % k ≤ j
  · refine countAssigned_pos_of_hit k s j k (j - s % k) (by omega) ?_
    have h1 : s + (j - s % k) = k * (s / k) + j := by omega
    rw [h1, Nat.mul_add_mod]
    exact Nat.mod_eq_of_lt hj
  · refine countAssigned_pos_of_hit k s j k (k + j - s % k) (by omega) ?_
    have h1 : s + (k + j - s % k) = k * (s / k + 1) + j := by
      rw [Nat.mul_add, Nat.mul_one]
      omega
    rw [h1, Nat.mul_add_mod]
    exact Nat.mod_eq_of_lt hj

theorem countAssigned_ge_div (n s j k : Nat) (hk : 0 < k) (hj : j < k) :
    n / k ≤ countAssigned n s j k := by
  induction n using Nat.strong_induction_on generalizing s with
  | _ n ih =>
    rcases Nat.lt_or_ge n k with hlt | hge
    · rw [Nat.div_eq_of_lt hlt]
      omega
    · have hsplit : n = k + (n - k) := by omega
      rw [hsplit, countAssigned_split k (n - k) s j k]
      have h1 := countAssigned_window_pos k s j hk hj
      have h2 : countAssigned (n - k) (s + k) j k =
          countAssigned (n - k) s j k := countAssigned_shift (n - k) s j k
      have h3 := ih (n - k) (by omega) s
      have h4 : (k + (n - k)) / k = (n - k) / k + 1 := by
        rw [← hsplit]
        exact Nat.div_eq_sub_div hk hge
      rw [h4]
      omega

theorem distRep_lengths : ∀ (reps : List Nat) (k i : Nat)
    (ms : List (List Nat)) (nrep : List Nat),
    (distributeReputables reps k i ms nrep).1.length = ms.length ∧
      (distributeReputables reps k i ms nrep).2.length = nrep.length := by
  intro reps
  induction reps with
  | nil =>
    intro k i ms nrep
    exact ⟨rfl, rfl⟩
  | cons p rest ih =>
    intro k i ms nrep
    simp only [distributeReputables]
    obtain ⟨h1, h2⟩ := ih k (i + 1)
      (ms.set (i % k) (ms.getD (i % k) [] ++ [p]))
      (nrep.set (i % k) (nrep.getD (i % k) 0 + 1))
    constructor
    · rw [h1, List.length_set]
    · rw [h2, List.length_set]

theorem distRep_bucket_len : ∀ (reps : List Nat) (k i : Nat)
    (ms : List (List Nat)) (nrep : List Nat) (j : Nat),
    0 < k → ms.length = k → j < k →
    ((distributeReputables reps k i ms nrep).1.getD j []).length =
      (ms.getD j []).length + countAssigned reps.length i j k := by
  intro reps
  induction reps with
  | nil =>
    intro k i ms nrep j hk hms hj
    simp [distributeReputables, countAssigned]
  | cons p rest ih =>
    intro k i ms nrep j hk hms hj
    simp only [distributeReputables]
    have hik : i % k < ms.length := by
      rw [hms]
      exact Nat.mod_lt i hk
    have hlen : (ms.set (i % k) (ms.getD (i % k) [] ++ [p])).length = k := by
      rw [List.length_set, hms]
    rw [ih k (i + 1) _ _ j hk hlen hj]
    show ((ms.set (i % k) (ms.getD (i % k) [] ++ [p])).getD j []).length +
        countAssigned rest.length (i + 1) j k =
      (ms.getD j []).length +
        ((if i % k = j then 1 else 0) + countAssigned rest.length (i + 1) j k)
    by_cases hij : i % k = j
    · rw [← hij, getD_set_self ms (i % k) _ [] hik, List.length_append]
      simp
      omega
    · rw [getD_set_ne ms (i % k) j _ [] (fun hh => hij hh.symm), if_neg hij]
      omega

theorem distRep_nrep_val : ∀ (reps : List Nat) (k i : Nat)
    (ms : List (List Nat)) (nrep : List Nat) (j : Nat),
    0 < k → nrep.length = k → j < k →
    (distributeReputables reps k i ms nrep).2.getD j 0 =
      nrep.getD j 0 + countAssigned reps.length i j k := by
  intro reps
  induction reps with
  | nil =>
    intro k i ms nrep j hk hms hj
    simp [distributeReputables, countAssigned]
  | cons p rest ih =>
    intro k i ms nrep j hk hnrep hj
    simp only [distributeReputables]
    have hik : i % k < nrep.length := by
      rw [hnrep]
      exact Nat.mod_lt i hk
    have hlen : (nrep.set (i % k) (nrep.getD (i % k) 0 + 1)).length = k := by
      rw [List.length_set, hnrep]
    rw [ih k (i + 1) _ _ j hk hlen hj]
    show (nrep.set (i % k) (nrep.getD (i % k) 0 + 1)).getD j 0 +
        countAssigned rest.length (i + 1) j k =
      nrep.getD j 0 +
        ((if i % k = j then 1 else 0) + countAssigned rest.length (i + 1) j k)
    by_cases hij : i % k = j
    · rw [← hij, getDN_set_self nrep (i % k) _ 0 hik]
      simp
      omega
    · rw [getDN_set_ne nrep (i % k) j _ 0 (fun hh => hij hh.symm), if_neg hij]
      omega

theorem sumLens_set_append (ms : List (List Nat)) (idx : Nat) (x : Nat)
    (h : idx < ms.length) :
    sumLens (ms.set idx (ms.getD idx [] ++ [x])) = sumLens ms + 1 := by
  induction ms generalizing idx with
  | nil => simp at h
  | cons b rest ih =>
    cases idx with
    | zero =>
      simp [sumLens, List.length_append]
      omega
    | succ n =>
      have hn : n < rest.length := by
        simp at h
        omega
      simp only [List.set_cons_succ, List.getD_cons_succ, sumLens,
        List.map_cons, List.sum_cons]
      have := ih n hn
      simp only [sumLens] at this
      omega

theorem sumN_set_succ (l : List Nat) (idx : Nat) (h : idx < l.length) :
    (l.set idx (l.getD idx 0 + 1)).sum = l.sum + 1 := by
  induction l generalizing idx with
  | nil => simp at h
  | cons b rest ih =>
    cases idx with
    | zero =>
      simp
      omega
    | succ n =>
      have hn : n < rest.length := by
        simp at h
        omega
      simp only [List.set_cons_succ, List.getD_cons_succ, List.sum_cons]
      have := ih n hn
      omega

theorem distRep_sum : ∀ (reps : List Nat) (k i : Nat)
    (ms : List (List Nat)) (nrep : List Nat), 0 < k → ms.length = k →
    sumLens (distributeReputables reps k i ms nrep).1 =
      sumLens ms + reps.length := by
  intro reps
  induction reps with
  | nil =>
    intro k i ms nrep hk hms
    simp [distributeReputables]
  | cons p rest ih =>
    intro k i ms nrep hk hms
    simp only [distributeReputables]
    have hik : i % k < ms.length := by
      rw [hms]
      exact Nat.mod_lt i hk
    have hlen : (ms.set (i % k) (ms.getD (i % k) [] ++ [p])).length = k := by
      rw [List.length_set, hms]
    rw [ih k (i + 1) _ _ hk hlen, sumLens_set_append ms (i % k) p hik]
    simp
    omega

theorem distRep_nrep_sum : ∀ (reps : List Nat) (k i : Nat)
    (ms : List (List Nat)) (nrep : List Nat), 0 < k → nrep.length = k →
    (distributeReputables reps k i ms nrep).2.sum =
      nrep.sum + reps.length := by
  intro reps
  induction reps with
  | nil =>
    intro k i ms nrep hk hms
    simp [distributeReputables]
  | cons p rest ih =>
    intro k i ms nrep hk hnrep
    simp only [distributeReputables]
    have hik : i % k < nrep.length := by
      rw [hnrep]
      exact Nat.mod_lt i hk
    have hlen : (nrep.set (i % k) (nrep.getD (i % k) 0 + 1)).length = k := by
      rw [List.length_set, hnrep]
    rw [ih k (i + 1) _ _ hk hlen, sumN_set_succ nrep (i % k) hik]
    simp
    omega

theorem sumLens_replicate (k : Nat) :
    sumLens (List.replicate k ([] : List Nat)) = 0 := by
  simp [sumLens]

theorem distNew_length : ∀ (news : List Nat) (k i : Nat)
    (ms : List (List Nat)) (nrep : List Nat),
    (distributeNewbies news k i ms nrep).length = ms.length := by
  intro news
  induction news with
  | nil => intro k i ms nrep; rfl
  | cons p rest ih =>
    intro k i ms nrep
    simp only [distributeNewbies]
    by_cases hc : (ms.getD (i % k) []).length < nrep.getD (i % k) 0 * 4 / 3
    · rw [if_pos hc, ih, List.length_set]
    · rw [if_neg hc, ih]

theorem distNew_bucket_ge : ∀ (news : List Nat) (k i : Nat)
    (ms : List (List Nat)) (nrep : List Nat) (j : Nat),
    0 < k → ms.length = k →
    (ms.getD j []).length ≤
      ((distributeNewbies news k i ms nrep).getD j []).length := by
  intro news
  induction news with
  | nil =>
    intro k i ms nrep j hk hms
    exact Nat.le_refl _
  | cons p rest ih =>
    intro k i ms nrep j hk hms
    simp only [distributeNewbies]
    have hik : i % k < ms.length := by
      rw [hms]
      exact Nat.mod_lt i hk
    by_cases hc : (ms.getD (i % k) []).length < nrep.getD (i % k) 0 * 4 / 3
    · rw [if_pos hc]
      have hlen : (ms.set (i % k) (ms.getD (i % k) [] ++ [p])).length = k := by
        rw [List.length_set, hms]
      refine Nat.le_trans ?_ (ih k (i + 1) _ nrep j hk hlen)
      by_cases hj : j = i % k
      · rw [hj, getD_set_self ms (i % k) _ [] hik, List.length_append]
        simp
      · rw [getD_set_ne ms (i % k) j _ [] hj]
    · rw [if_neg hc]
      exact ih k (i + 1) ms nrep j hk hms

theorem distNew_bucket_le : ∀ (news : List Nat) (k i : Nat)
    (ms : List (List Nat)) (nrep : List Nat),
    0 < k → ms.length = k →
    (∀ j, j < k → (ms.getD j []).length ≤ nrep.getD j 0 * 4 / 3) →
    ∀ j, j < k →
      ((distributeNewbies news k i ms nrep).getD j []).length ≤
        nrep.getD j 0 * 4 / 3 := by
  intro news
  induction news with
  | nil =>
    intro k i ms nrep hk hms hbound j hj
    exact hbound j hj
  | cons p rest ih =>
    intro k i ms nrep hk hms hbound j hj
    simp only [distributeNewbies]
    have hik : i % k < ms.length := by
      rw [hms]
      exact Nat.mod_lt i hk
    by_cases hc : (ms.getD (i % k) []).length < nrep.getD (i % k) 0 * 4 / 3
    · rw [if_pos hc]
      have hlen : (ms.set (i % k) (ms.getD (i % k) [] ++ [p])).length = k := by
        rw [List.length_set, hms]
      refine ih k (i + 1) _ nrep hk hlen ?_ j hj
      intro j' hj'
      by_cases hj'' : j' = i % k
      · rw [hj'', getD_set_self ms (i % k) _ [] hik, List.length_append]
        simp only [List.length_singleton]
        omega
      · rw [getD_set_ne ms (i % k) j' _ [] hj'']
        exact hbound j' hj'
    · rw [if_neg hc]
      exact ih k (i + 1) ms nrep hk hms hbound j hj

theorem sumLens_le_sum_quota : ∀ (ms : List (List Nat)) (nrep : List Nat),
    ms.length = nrep.length →
    (∀ j, j < ms.length → (ms.getD j []).length ≤ nrep.getD j 0 * 4 / 3) →
    sumLens ms ≤ (nrep.map (fun r => r * 4 / 3)).sum := by
  intro ms
  induction ms with
  | nil =>
    intro nrep _ _
    simp [sumLens]
  | cons b rest ih =>
    intro nrep hlen hbound
    cases nrep with
    | nil => simp at hlen
    | cons r nr =>
      have hhead := hbound 0 (by simp)
      simp only [List.getD_cons_zero] at hhead
      have htail := ih nr (by simpa using hlen) (fun j hj => by
        have := hbound (j + 1) (by simpa using Nat.succ_lt_succ hj)
        simpa using this)
      simp only [sumLens, List.map_cons, List.sum_cons] at htail ⊢
      omega

theorem sum_quota_le (nrep : List Nat) :
    (nrep.map (fun r => r * 4 / 3)).sum ≤ nrep.sum + nrep.sum / 3 := by
  induction nrep with
  | nil => simp
  | cons r nr ih =>
    simp only [List.map_cons, List.sum_cons] at ih ⊢
    omega

theorem nMeetupsOf_pos (reps news : List Nat) : 0 < nMeetupsOf reps news := by
  unfold nMeetupsOf
  omega

/-- C3 fails on the code: with 9 reputables and 3 newbies (the spec's
own worked example), assign_meetups forms one meetup and admits all 3
newbies (sizes 9, 10 and 11 all lie below the per-meetup limit
9 * 4 / 3 = 12), while floor(9 / 4) = 2. -/
theorem C3_counterexample :
    collectParticipants baseEnv c3State 0 1 =
        ([1, 2, 3, 4, 5, 6, 7, 8, 9], [10, 11, 12]) ∧
      (assignMeetupsFor baseEnv c3State 0).meetupRegistry (0, 1) 1 =
        [1, 2, 3, 4, 5, 6, 7, 8, 9, 10, 11, 12] ∧
      newbiesPlaced [1, 2, 3, 4, 5, 6, 7, 8, 9] [10, 11, 12] = 3 ∧
      ¬ newbiesPlaced [1, 2, 3, 4, 5, 6, 7, 8, 9] [10, 11, 12] ≤ 9 / 4 :=
  ⟨by decide, by decide, by decide, by decide⟩

/-- C3 amended: for every input population the number of newbies the
distribution loops of assign_meetups actually place into meetups is at
most floor(R / 3) — one newbie per three reputables via the per-meetup
limit size < reputables * 4 / 3 — not floor(R / 4). -/
theorem C3_newbie_bound_amended (reps news : List Nat) :
    newbiesPlaced reps news ≤ reps.length / 3 := by
  simp only [newbiesPlaced, distributedMeetups]
  have hkpos : 0 < nMeetupsOf reps news := nMeetupsOf_pos reps news
  obtain ⟨hlen1, hlen2⟩ := distRep_lengths reps (nMeetupsOf reps news) 0
    (List.replicate (nMeetupsOf reps news) [])
    (List.replicate (nMeetupsOf reps news) 0)
  rw [List.length_replicate] at hlen1 hlen2
  have hbucket : ∀ j, j < nMeetupsOf reps news →
      (((distributeReputables reps (nMeetupsOf reps news) 0
        (List.replicate (nMeetupsOf reps news) [])
        (List.replicate (nMeetupsOf reps news) 0)).1.getD j []).length) =
      countAssigned reps.length 0 j (nMeetupsOf reps news) := by
    intro j hj
    rw [distRep_bucket_len reps (nMeetupsOf reps news) 0 _ _ j hkpos
      (by rw [List.length_replicate]) hj,
      getD_replicate_nil (nMeetupsOf reps news) j [] hj]
    simp
  have hnrep : ∀ j, j < nMeetupsOf reps news →
      ((distributeReputables reps (nMeetupsOf reps news) 0
        (List.replicate (nMeetupsOf reps news) [])
        (List.replicate (nMeetupsOf reps news) 0)).2.getD j 0) =
      countAssigned reps.length 0 j (nMeetupsOf reps news) := by
    intro j hj
    rw [distRep_nrep_val reps (nMeetupsOf reps news) 0 _ _ j hkpos
      (by rw [List.length_replicate]) hj,
      getDN_replicate_zero (nMeetupsOf reps news) j 0 hj]
    simp
  have hbound : ∀ j, j < nMeetupsOf reps news →
      (((distributeReputables reps (nMeetupsOf reps news) 0
        (List.replicate (nMeetupsOf reps news) [])
        (List.replicate (nMeetupsOf reps news) 0)).1.getD j []).length) ≤
      ((distributeReputables reps (nMeetupsOf reps news) 0
        (List.replicate (nMeetupsOf reps news) [])
        (List.replicate (nMeetupsOf reps news) 0)).2.getD j 0) * 4 / 3 := by
    intro j hj
    rw [hbucket j hj, hnrep j hj]
    omega
  have hle := distNew_bucket_le news (nMeetupsOf reps news) 0 _ _ hkpos
    hlen1 hbound
  have hsum := sumLens_le_sum_quota
    (distributeNewbies news (nMeetupsOf reps news) 0
      (distributeReputables reps (nMeetupsOf reps news) 0
        (List.replicate (nMeetupsOf reps news) [])
        (List.replicate (nMeetupsOf reps news) 0)).1
      (distributeReputables reps (nMeetupsOf reps news) 0
        (List.replicate (nMeetupsOf reps news) [])
        (List.replicate (nMeetupsOf reps news) 0)).2)
    (distributeReputables reps (nMeetupsOf reps news) 0
      (List.replicate (nMeetupsOf reps news) [])
      (List.replicate (nMeetupsOf reps news) 0)).2
    (by rw [distNew_length, hlen1, hlen2])
    (fun j hj => hle j (by rwa [distNew_length, hlen1] at hj))
  have hquota := sum_quota_le
    (distributeReputables reps (nMeetupsOf reps news) 0
      (List.replicate (nMeetupsOf reps news) [])
      (List.replicate (nMeetupsOf reps news) 0)).2
  have hrsum : (distributeReputables reps (nMeetupsOf reps news) 0
      (List.replicate (nMeetupsOf reps news) [])
      (List.replicate (nMeetupsOf reps news) 0)).2.sum = reps.length := by
    rw [distRep_nrep_sum reps (nMeetupsOf reps news) 0 _ _ hkpos
      (by rw [List.length_replicate])]
    simp
  rw [hrsum] at hquota
  omega

theorem removeUndersized_id (ms : List (List Nat))
    (h : ∀ i, i < ms.length → ¬ (ms.getD i []).length < 3) :
    removeUndersized ms = ms := by
  simp only [removeUndersized]
  have hfil : (List.range ms.length).filter
      (fun i => decide ((ms.getD i []).length < 3)) = [] := by
    refine List.filter_eq_nil_iff.mpr ?_
    intro a ha
    simpa using h a (List.mem_range.mp ha)
  rw [hfil]
  rfl

theorem removeUndersized_singleton (b : List Nat) :
    removeUndersized [b] = if b.length < 3 then [] else [b] := by
  by_cases hb : b.length < 3 <;>
    simp [removeUndersized, List.range_succ, hb]

theorem commit_inner_fields (cc : CurrencyCeremony) (idx : Nat) :
    ∀ (m : List Nat) (s : State),
    ((m.foldl (fun t p =>
        { t with meetupIndex := upd2 t.meetupIndex cc p idx }) s)
      |>.meetupRegistry) = s.meetupRegistry ∧
    ((m.foldl (fun t p =>
        { t with meetupIndex := upd2 t.meetupIndex cc p idx }) s)
      |>.meetupCount) = s.meetupCount := by
  intro m
  induction m with
  | nil => intro s; exact ⟨rfl, rfl⟩
  | cons p rest ih =>
    intro s
    rw [List.foldl_cons]
    exact ih _

theorem commit_inner_index (cc : CurrencyCeremony) (idx : Nat) :
    ∀ (m : List Nat) (s : State) (a : Nat),
    ((m.foldl (fun t p =>
        { t with meetupIndex := upd2 t.meetupIndex cc p idx }) s)
      |>.meetupIndex) cc a =
    if a ∈ m then idx else s.meetupIndex cc a := by
  intro m
  induction m with
  | nil => intro s a; simp
  | cons p rest ih =>
    intro s a
    rw [List.foldl_cons, ih]
    by_cases har : a ∈ rest
    · rw [if_pos har, if_pos (List.mem_cons_of_mem p har)]
    · rw [if_neg har]
      by_cases hap : a = p
      · simp [upd2, hap]
      · have : a ∉ p :: rest := by
          simp [hap, har]
        rw [if_neg this]
        simp [upd2, hap]

theorem commitMeetups_registry : ∀ (ms : List (List Nat))
    (cc : CurrencyCeremony) (i0 : Nat) (s : State) (m : Nat),
    (commitMeetups cc i0 ms s).meetupRegistry cc m =
      if i0 + 1 ≤ m ∧ m ≤ i0 + ms.length then ms.getD (m - i0 - 1) []
      else s.meetupRegistry cc m := by
  intro ms
  induction ms with
  | nil =>
    intro cc i0 s m
    rw [if_neg (by simp; omega)]
    rfl
  | cons b rest ih =>
    intro cc i0 s m
    simp only [commitMeetups]
    rw [ih]
    simp only [List.length_cons]
    obtain ⟨hif, -⟩ := commit_inner_fields cc (i0 + 1) b s
    by_cases h1 : i0 + 2 ≤ m ∧ m ≤ i0 + 1 + rest.length
    · rw [if_pos (by omega), if_pos (by omega)]
      have hm : m - i0 - 1 = (m - i0 - 2) + 1 := by omega
      rw [hm, List.getD_cons_succ]
      have hm2 : m - (i0 + 1) - 1 = m - i0 - 2 := by omega
      rw [hm2]
    · rw [if_neg (by omega)]
      simp only [upd2, if_pos rfl]
      by_cases h2 : m = i0 + 1
      · rw [if_pos h2]
        have hc : i0 + 1 ≤ m ∧ m ≤ i0 + (rest.length + 1) := by omega
        rw [if_pos hc]
        have hm : m - i0 - 1 = 0 := by omega
        rw [hm, List.getD_cons_zero]
        simp
      · rw [if_neg h2, hif]
        have hc : ¬ (i0 + 1 ≤ m ∧ m ≤ i0 + (rest.length + 1)) := by omega
        rw [if_neg hc]
        simp

theorem commitMeetups_index_cases : ∀ (ms : List (List Nat))
    (cc : CurrencyCeremony) (i0 : Nat) (s : State) (a : Nat),
    (commitMeetups cc i0 ms s).meetupIndex cc a = s.meetupIndex cc a ∨
      ∃ j, j < ms.length ∧ a ∈ ms.getD j [] ∧
        (commitMeetups cc i0 ms s).meetupIndex cc a = i0 + 1 + j := by
  intro ms
  induction ms with
  | nil =>
    intro cc i0 s a
    left
    rfl
  | cons b rest ih =>
    intro cc i0 s a
    simp only [commitMeetups]
    rcases ih cc (i0 + 1) _ a with hcase | ⟨j, hj, hmem, heq⟩
    · rw [hcase]
      have hs2 := commit_inner_index cc (i0 + 1) b s a
      by_cases hab : a ∈ b
      · right
        refine ⟨0, by simp, by simpa using hab, ?_⟩
        rw [hs2, if_pos hab]
      · left
        rw [hs2, if_neg hab]
    · right
      refine ⟨j + 1, by simpa using Nat.succ_lt_succ hj,
        by simpa [List.getD_cons_succ] using hmem, ?_⟩
      rw [heq]
      omega

theorem commitMeetups_count : ∀ (ms : List (List Nat))
    (cc : CurrencyCeremony) (i0 : Nat) (s : State),
    (commitMeetups cc i0 ms s).meetupCount = s.meetupCount := by
  intro ms
  induction ms with
  | nil =>
    intro cc i0 s
    rfl
  | cons b rest ih =>
    intro cc i0 s
    simp only [commitMeetups]
    rw [ih]
    exact (commit_inner_fields cc (i0 + 1) b s).2

theorem survivors_spec (reps news : List Nat) :
    (∀ b ∈ removeUndersized (distributedMeetups reps news), 3 ≤ b.length) ∧
      (removeUndersized (distributedMeetups reps news) = [] ∨
        (removeUndersized (distributedMeetups reps news)).length =
          nMeetupsOf reps news) := by
  have hkpos := nMeetupsOf_pos reps news
  obtain ⟨hlen1, hlen2⟩ := distRep_lengths reps (nMeetupsOf reps news) 0
    (List.replicate (nMeetupsOf reps news) [])
    (List.replicate (nMeetupsOf reps news) 0)
  rw [List.length_replicate] at hlen1 hlen2
  have hmslen : (distributedMeetups reps news).length =
      nMeetupsOf reps news := by
    simp only [distributedMeetups]
    rw [distNew_length, hlen1]
  by_cases hn : reps.length + min news.length (reps.length / 4) < 12
  · have hk1 : nMeetupsOf reps news = 1 := by
      unfold nMeetupsOf
      omega
    obtain ⟨b, hb⟩ := List.length_eq_one.mp (hmslen.trans hk1)
    rw [hb, removeUndersized_singleton]
    by_cases h3 : b.length < 3
    · rw [if_pos h3]
      refine ⟨?_, Or.inl rfl⟩
      intro x hx
      cases hx
    · rw [if_neg h3]
      refine ⟨?_, Or.inr ?_⟩
      · intro x hx
        rw [List.mem_singleton] at hx
        subst hx
        omega
      · rw [hk1]
        rfl
  · have hR3k : 3 * nMeetupsOf reps news ≤ reps.length := by
      unfold nMeetupsOf
      omega
    have hbucket3 : ∀ j, j < nMeetupsOf reps news →
        3 ≤ ((distributedMeetups reps news).getD j []).length := by
      intro j hj
      simp only [distributedMeetups]
      refine Nat.le_trans ?_
        (distNew_bucket_ge news (nMeetupsOf reps news) 0 _ _ j hkpos hlen1)
      rw [distRep_bucket_len reps (nMeetupsOf reps news) 0 _ _ j hkpos
        (by rw [List.length_replicate]) hj,
        getD_replicate_nil (nMeetupsOf reps news) j [] hj]
      simp only [List.length_nil, Nat.zero_add]
      refine Nat.le_trans ?_
        (countAssigned_ge_div reps.length 0 j (nMeetupsOf reps news)
          hkpos hj)
      exact (Nat.le_div_iff_mul_le hkpos).mpr (by omega)
    have hid : removeUndersized (distributedMeetups reps news) =
        distributedMeetups reps news :=
      removeUndersized_id _ (fun i hi => by
        have := hbucket3 i (by rwa [hmslen] at hi)
        omega)
    rw [hid]
    constructor
    · intro b hbmem
      obtain ⟨i, hi, hieq⟩ := List.mem_iff_getElem.mp hbmem
      have hgd : (distributedMeetups reps news).getD i [] = b := by
        rw [List.getD_eq_getElem _ _ hi, hieq]
      rw [← hgd]
      exact hbucket3 i (by rwa [hmslen] at hi)
    · exact Or.inr hmslen

/-- C4: after assign_meetups commits, every stored meetup has at least 3
members, and every account holding a (nonzero) meetup assignment belongs
to a stored meetup of size at least 3 — so members of discarded meetups
hold no assignment.  The fresh-ceremony hypotheses say no meetup state
for this ceremony key existed beforehand, which is how the hook runs. -/
theorem C4_committed_meetups_min_size (env : Env) (s : State) (cid : Nat)
    (hreg : ∀ m, s.meetupRegistry (cid, env.currentCeremonyIndex) m = [])
    (hidx : ∀ a, s.meetupIndex (cid, env.currentCeremonyIndex) a = 0) :
    (∀ m, (assignMeetupsFor env s cid).meetupRegistry
        (cid, env.currentCeremonyIndex) m ≠ [] →
      3 ≤ ((assignMeetupsFor env s cid).meetupRegistry
        (cid, env.currentCeremonyIndex) m).length) ∧
    (∀ a, (assignMeetupsFor env s cid).meetupIndex
        (cid, env.currentCeremonyIndex) a ≠ 0 →
      a ∈ (assignMeetupsFor env s cid).meetupRegistry
          (cid, env.currentCeremonyIndex)
          ((assignMeetupsFor env s cid).meetupIndex
            (cid, env.currentCeremonyIndex) a) ∧
      3 ≤ ((assignMeetupsFor env s cid).meetupRegistry
          (cid, env.currentCeremonyIndex)
          ((assignMeetupsFor env s cid).meetupIndex
            (cid, env.currentCeremonyIndex) a)).length) := by
  unfold assignMeetupsFor
  obtain ⟨hmin3, -⟩ := survivors_spec
    (collectParticipants env s cid env.currentCeremonyIndex).1
    (collectParticipants env s cid env.currentCeremonyIndex).2
  by_cases hemp : (removeUndersized (distributedMeetups
      (collectParticipants env s cid env.currentCeremonyIndex).1
      (collectParticipants env s cid env.currentCeremonyIndex).2)).isEmpty
  · rw [if_pos hemp]
    constructor
    · intro m hm
      exact absurd (hreg m) hm
    · intro a ha
      exact absurd (hidx a) ha
  · rw [if_neg hemp]
    constructor
    · intro m hm
      rw [commitMeetups_registry] at hm ⊢
      by_cases hcond : 0 + 1 ≤ m ∧ m ≤ 0 + (removeUndersized
          (distributedMeetups
            (collectParticipants env s cid env.currentCeremonyIndex).1
            (collectParticipants env s cid
              env.currentCeremonyIndex).2)).length
      · rw [if_pos hcond] at hm ⊢
        exact hmin3 _ (getD_mem _ (m - 0 - 1) (by omega))
      · rw [if_neg hcond] at hm
        exact absurd (hreg m) hm
    · intro a ha
      rcases commitMeetups_index_cases
          (removeUndersized (distributedMeetups
            (collectParticipants env s cid env.currentCeremonyIndex).1
            (collectParticipants env s cid env.currentCeremonyIndex).2))
          (cid, env.currentCeremonyIndex) 0 _ a with
        hcase | ⟨j, hj, hmem, heq⟩
      · rw [hcase] at ha
        exact absurd (hidx a) ha
      · rw [heq, commitMeetups_registry,
          if_pos (by constructor <;> omega)]
        have hj' : 0 + 1 + j - 0 - 1 = j := by omega
        rw [hj']
        exact ⟨hmem, hmin3 _ (getD_mem _ j hj)⟩

/-- Witness for C4 at the concrete 12-participant population. -/
theorem C4_committed_meetups_min_size_witness :
    ((∀ m, c3State.meetupRegistry (0, 1) m = []) ∧
      (∀ a, c3State.meetupIndex (0, 1) a = 0)) ∧
    ((∀ m, (assignMeetupsFor baseEnv c3State 0).meetupRegistry (0, 1) m ≠
        [] →
      3 ≤ ((assignMeetupsFor baseEnv c3State 0).meetupRegistry
        (0, 1) m).length) ∧
    (∀ a, (assignMeetupsFor baseEnv c3State 0).meetupIndex (0, 1) a ≠ 0 →
      a ∈ (assignMeetupsFor baseEnv c3State 0).meetupRegistry (0, 1)
          ((assignMeetupsFor baseEnv c3State 0).meetupIndex (0, 1) a) ∧
      3 ≤ ((assignMeetupsFor baseEnv c3State 0).meetupRegistry (0, 1)
          ((assignMeetupsFor baseEnv c3State 0).meetupIndex
            (0, 1) a)).length)) :=
  ⟨⟨fun _ => rfl, fun _ => rfl⟩,
    C4_committed_meetups_min_size baseEnv c3State 0 (fun _ => rfl)
      (fun _ => rfl)⟩

/-- C5: after assign_meetups, a meetup index holds a stored (nonempty)
member list exactly when it lies between 1 and the stored per-community
meetup count — the stored count equals the number of surviving meetups —
and when no meetup survives nothing at all is committed: the state is
unchanged. -/
theorem C5_meetup_count_matches (env : Env) (s : State) (cid : Nat)
    (hreg : ∀ m, s.meetupRegistry (cid, env.currentCeremonyIndex) m = [])
    (hcnt : s.meetupCount (cid, env.currentCeremonyIndex) = 0) :
    (∀ m, (assignMeetupsFor env s cid).meetupRegistry
        (cid, env.currentCeremonyIndex) m ≠ [] ↔
      (1 ≤ m ∧ m ≤ (assignMeetupsFor env s cid).meetupCount
        (cid, env.currentCeremonyIndex))) ∧
    ((assignMeetupsFor env s cid).meetupCount
        (cid, env.currentCeremonyIndex) = 0 →
      assignMeetupsFor env s cid = s) := by
  unfold assignMeetupsFor
  obtain ⟨hmin3, hlen⟩ := survivors_spec
    (collectParticipants env s cid env.currentCeremonyIndex).1
    (collectParticipants env s cid env.currentCeremonyIndex).2
  by_cases hemp : (removeUndersized (distributedMeetups
      (collectParticipants env s cid env.currentCeremonyIndex).1
      (collectParticipants env s cid env.currentCeremonyIndex).2)).isEmpty
  · rw [if_pos hemp]
    refine ⟨?_, fun _ => rfl⟩
    intro m
    constructor
    · intro hm
      exact absurd (hreg m) hm
    · intro hh
      rw [hcnt] at hh
      exfalso
      omega
  · rw [if_neg hemp]
    have hne : removeUndersized (distributedMeetups
        (collectParticipants env s cid env.currentCeremonyIndex).1
        (collectParticipants env s cid env.currentCeremonyIndex).2) ≠
        [] := by
      intro h0
      rw [h0] at hemp
      exact hemp rfl
    have hlen' := hlen.resolve_left hne
    have hcount : (commitMeetups (cid, env.currentCeremonyIndex) 0
        (removeUndersized (distributedMeetups
          (collectParticipants env s cid env.currentCeremonyIndex).1
          (collectParticipants env s cid env.currentCeremonyIndex).2))
        { s with meetupCount := (upd1 s.meetupCount
            (cid, env.currentCeremonyIndex)
            (nMeetupsOf
              (collectParticipants env s cid env.currentCeremonyIndex).1
              (collectParticipants env s cid
                env.currentCeremonyIndex).2)) }).meetupCount
        (cid, env.currentCeremonyIndex) =
        nMeetupsOf
          (collectParticipants env s cid env.currentCeremonyIndex).1
          (collectParticipants env s cid env.currentCeremonyIndex).2 := by
      rw [commitMeetups_count]
      simp [upd1]
    constructor
    · intro m
      rw [hcount, commitMeetups_registry]
      constructor
      · intro hm
        by_cases hcond : 0 + 1 ≤ m ∧ m ≤ 0 + (removeUndersized
            (distributedMeetups
              (collectParticipants env s cid env.currentCeremonyIndex).1
              (collectParticipants env s cid
                env.currentCeremonyIndex).2)).length
        · rw [hlen'] at hcond
          omega
        · rw [if_neg hcond] at hm
          exact absurd (hreg m) hm
      · intro hh
        have hcond : 0 + 1 ≤ m ∧ m ≤ 0 + (removeUndersized
            (distributedMeetups
              (collectParticipants env s cid env.currentCeremonyIndex).1
              (collectParticipants env s cid
                env.currentCeremonyIndex).2)).length := by
          rw [hlen']
          omega
        rw [if_pos hcond]
        have h3 := hmin3 _ (getD_mem _ (m - 0 - 1) (by omega))
        intro hnil
        rw [hnil] at h3
        simp at h3
    · intro h0
      rw [hcount] at h0
      exfalso
      have := nMeetupsOf_pos
        (collectParticipants env s cid env.currentCeremonyIndex).1
        (collectParticipants env s cid env.currentCeremonyIndex).2
      omega

/-- Witness for C5 at the concrete 12-participant population. -/
theorem C5_meetup_count_matches_witness :
    ((∀ m, c3State.meetupRegistry (0, 1) m = []) ∧
      c3State.meetupCount (0, 1) = 0) ∧
    ((∀ m, (assignMeetupsFor baseEnv c3State 0).meetupRegistry (0, 1) m ≠
        [] ↔
      (1 ≤ m ∧ m ≤ (assignMeetupsFor baseEnv c3State 0).meetupCount
        (0, 1))) ∧
    ((assignMeetupsFor baseEnv c3State 0).meetupCount (0, 1) = 0 →
      assignMeetupsFor baseEnv c3State 0 = c3State)) :=
  ⟨⟨fun _ => rfl, rfl⟩,
    C5_meetup_count_matches baseEnv c3State 0 (fun _ => rfl) rfl⟩

theorem proofCheck_ok_elim (env : Env) (s : State) (sender cid cindex : Nat)
    (p : ProofOfAttendance) (s1 : State)
    (h : proofCheck env s sender cid cindex p = .ok s1) :
    p.ceremony_index < cindex ∧
      s.participantReputation (p.currency_identifier, p.ceremony_index)
        p.attendee_public = Reputation.VerifiedUnlinked ∧
      s1.participantReputation =
        upd2 (upd2 s.participantReputation
            (p.currency_identifier, p.ceremony_index) p.attendee_public
            Reputation.VerifiedLinked)
          (cid, cindex) sender Reputation.UnverifiedReputable := by
  unfold proofCheck at h
  split at h
  · exact Except.noConfusion h
  split at h
  · exact Except.noConfusion h
  split at h
  · exact Except.noConfusion h
  split at h
  · exact Except.noConfusion h
  split at h
  · exact Except.noConfusion h
  rename_i h1 h2 h3 h4 h5
  rw [not_not] at h2
  rw [not_not] at h4
  injection h with h
  subst h
  exact ⟨h2, h4, rfl⟩

theorem registerParticipant_rep_cases (env : Env) (s : State)
    (sender cid : Nat) (proof : Option ProofOfAttendance) (s' : State)
    (h : registerParticipant env s sender cid proof = .ok s')
    (x : CurrencyCeremony) (y : Nat) :
    s'.participantReputation x y = s.participantReputation x y ∨
      s'.participantReputation x y = Reputation.VerifiedLinked ∨
      (x.2 = env.currentCeremonyIndex ∧
        s'.participantReputation x y = Reputation.UnverifiedReputable) := by
  unfold registerParticipant at h
  split at h
  · exact Except.noConfusion h
  split at h
  · exact Except.noConfusion h
  split at h
  · exact Except.noConfusion h
  split at h
  · exact Except.noConfusion h
  split at h
  · exact Except.noConfusion h
  rename_i s1 hs1
  injection h with h
  subst h
  show s1.participantReputation x y = s.participantReputation x y ∨ _ ∨ _
  split at hs1
  · injection hs1 with hs1
    subst hs1
    left
    rfl
  · rename_i p
    obtain ⟨hlt, hvu, hrep⟩ := proofCheck_ok_elim env s sender cid
      env.currentCeremonyIndex p s1 hs1
    have hkey : ((cid, env.currentCeremonyIndex) : CurrencyCeremony) ≠
        (p.currency_identifier, p.ceremony_index) := by
      intro hc
      rw [Prod.mk.injEq] at hc
      omega
    rw [hrep]
    by_cases hx1 : x = (cid, env.currentCeremonyIndex) ∧ y = sender
    · right; right
      refine ⟨by rw [hx1.1], ?_⟩
      simp [upd2, hx1.1, hx1.2]
    · by_cases hx2 : x = (p.currency_identifier, p.ceremony_index) ∧
          y = p.attendee_public
      · right; left
        obtain ⟨hxx, hyy⟩ := hx2
        subst hxx
        subst hyy
        simp [upd2, Ne.symm hkey]
      · left
        simp only [upd2]
        by_cases ha : x = (cid, env.currentCeremonyIndex)
        · have hb : y ≠ sender := fun hy => hx1 ⟨ha, hy⟩
          rw [if_pos ha, if_neg hb]
          by_cases hc : x = (p.currency_identifier, p.ceremony_index)
          · exact absurd (ha.symm.trans hc) hkey
          · rw [if_neg hc]
        · rw [if_neg ha]
          by_cases hc : x = (p.currency_identifier, p.ceremony_index)
          · have hd : y ≠ p.attendee_public := fun hy => hx2 ⟨hc, hy⟩
            rw [if_pos hc, if_neg hd]
          · rw [if_neg hc]

theorem registerParticipant_proof_success_facts (env : Env) (s : State)
    (sender cid : Nat) (p : ProofOfAttendance) (s' : State)
    (h : registerParticipant env s sender cid (some p) = .ok s') :
    p.ceremony_index < env.currentCeremonyIndex ∧
      s'.participantReputation (p.currency_identifier, p.ceremony_index)
        p.attendee_public = Reputation.VerifiedLinked := by
  unfold registerParticipant at h
  split at h
  · exact Except.noConfusion h
  split at h
  · exact Except.noConfusion h
  split at h
  · exact Except.noConfusion h
  split at h
  · exact Except.noConfusion h
  split at h
  · exact Except.noConfusion h
  rename_i s1 hs1
  injection h with h
  subst h
  have hs1' : proofCheck env s sender cid env.currentCeremonyIndex p =
      .ok s1 := hs1
  obtain ⟨hlt, hvu, hrep⟩ := proofCheck_ok_elim env s sender cid
    env.currentCeremonyIndex p s1 hs1'
  refine ⟨hlt, ?_⟩
  show s1.participantReputation (p.currency_identifier, p.ceremony_index)
    p.attendee_public = Reputation.VerifiedLinked
  rw [hrep]
  have hne : ((p.currency_identifier, p.ceremony_index) :
      CurrencyCeremony) ≠ (cid, env.currentCeremonyIndex) := by
    intro hcontra
    rw [Prod.mk.injEq] at hcontra
    omega
  simp [upd2, hne]

theorem registerParticipant_linked_not_ok (env : Env) (s : State)
    (sender cid : Nat) (p : ProofOfAttendance)
    (hrep : s.participantReputation
        (p.currency_identifier, p.ceremony_index) p.attendee_public ≠
      Reputation.VerifiedUnlinked) (s' : State) :
    registerParticipant env s sender cid (some p) ≠ .ok s' := by
  intro h
  unfold registerParticipant at h
  split at h
  · exact Except.noConfusion h
  split at h
  · exact Except.noConfusion h
  split at h
  · exact Except.noConfusion h
  split at h
  · exact Except.noConfusion h
  split at h
  · exact Except.noConfusion h
  rename_i s1 hs1
  have hs1' : proofCheck env s sender cid env.currentCeremonyIndex p =
      .ok s1 := hs1
  obtain ⟨_, hvu, _⟩ := proofCheck_ok_elim env s sender cid
    env.currentCeremonyIndex p s1 hs1'
  exact hrep hvu

theorem applyRegCalls_keep_linked (l : List RegCall) (s : State)
    (pc pi a : Nat)
    (hl : ∀ c ∈ l, pi < c.env.currentCeremonyIndex)
    (h : s.participantReputation (pc, pi) a = Reputation.VerifiedLinked) :
    (applyRegCalls s l).participantReputation (pc, pi) a =
      Reputation.VerifiedLinked := by
  induction l generalizing s with
  | nil => exact h
  | cons c rest ih =>
    refine ih _ (fun d hd => hl d (List.mem_cons_of_mem c hd)) ?_
    unfold applyRegCall
    split
    · rename_i s' hs'
      rcases registerParticipant_rep_cases c.env s c.sender c.cid c.proof
          s' hs' (pc, pi) a with hcase | hcase | ⟨hcc, _⟩
      · rw [hcase]; exact h
      · exact hcase
      · have hlt := hl c (List.mem_cons_self c rest)
        simp only at hcc
        omega
    · exact h

/-- C7: once a reputation entry has been consumed as proof by a
successful register_participant call it is VerifiedLinked, it stays
VerifiedLinked under any further register_participant calls (made at the
same or a later ceremony index), and no later call presenting a proof
referencing the same (community, ceremony index, attendee) entry can
succeed. -/
theorem C7_no_double_spend (env0 : Env) (s0 : State) (sender cid : Nat)
    (p : ProofOfAttendance) (s1 : State)
    (hok : registerParticipant env0 s0 sender cid (some p) = .ok s1)
    (trace : List RegCall)
    (htrace : ∀ c ∈ trace,
      env0.currentCeremonyIndex ≤ c.env.currentCeremonyIndex) :
    s1.participantReputation (p.currency_identifier, p.ceremony_index)
        p.attendee_public = Reputation.VerifiedLinked ∧
      (applyRegCalls s1 trace).participantReputation
        (p.currency_identifier, p.ceremony_index) p.attendee_public =
        Reputation.VerifiedLinked ∧
      ∀ (env' : Env) (sender' cid' : Nat) (p' : ProofOfAttendance)
        (s' : State),
        p'.currency_identifier = p.currency_identifier →
        p'.ceremony_index = p.ceremony_index →
        p'.attendee_public = p.attendee_public →
        registerParticipant env' (applyRegCalls s1 trace) sender' cid'
          (some p') ≠ .ok s' := by
  obtain ⟨hlt, hlinked⟩ :=
    registerParticipant_proof_success_facts env0 s0 sender cid p s1 hok
  have hstay : (applyRegCalls s1 trace).participantReputation
      (p.currency_identifier, p.ceremony_index) p.attendee_public =
      Reputation.VerifiedLinked :=
    applyRegCalls_keep_linked trace s1 p.currency_identifier
      p.ceremony_index p.attendee_public
      (fun c hc => Nat.lt_of_lt_of_le hlt (htrace c hc)) hlinked
  refine ⟨hlinked, hstay, ?_⟩
  intro env' sender' cid' p' s' hpc hpi hpa
  apply registerParticipant_linked_not_ok
  rw [hpc, hpi, hpa, hstay]
  intro hcontra
  cases hcontra

/-- Witness for C7: the concrete successful consuming registration of
the C6 scenario followed by one later plain registration call. -/
theorem C7_no_double_spend_witness :
    (registerParticipant regEnv regState 7 0 (some regProof) =
        .ok regSuccState ∧
      ∀ c ∈ [traceCall],
        regEnv.currentCeremonyIndex ≤ c.env.currentCeremonyIndex) ∧
    (regSuccState.participantReputation
        (regProof.currency_identifier, regProof.ceremony_index)
        regProof.attendee_public = Reputation.VerifiedLinked ∧
      (applyRegCalls regSuccState [traceCall]).participantReputation
        (regProof.currency_identifier, regProof.ceremony_index)
        regProof.attendee_public = Reputation.VerifiedLinked ∧
      ∀ (env' : Env) (sender' cid' : Nat) (p' : ProofOfAttendance)
        (s' : State),
        p'.currency_identifier = regProof.currency_identifier →
        p'.ceremony_index = regProof.ceremony_index →
        p'.attendee_public = regProof.attendee_public →
        registerParticipant env' (applyRegCalls regSuccState [traceCall])
          sender' cid' (some p') ≠ .ok s') :=
  ⟨⟨by rfl, by
      intro c hc
      rw [List.mem_singleton] at hc
      subst hc
      decide⟩,
    C7_no_double_spend regEnv regState 7 0 regProof regSuccState (by rfl)
      [traceCall] (by
        intro c hc
        rw [List.mem_singleton] at hc
        subst hc
        decide)⟩

/-- C8: the reward ballot never pays any member of a meetup whose winning
headcount bucket has fewer than 3 votes: such a meetup is skipped whole,
with no reward issuance and no reputation change for any of its members
(the state is left untouched). -/
theorem C8_low_quorum_meetup_skipped (env : Env) (cid : Nat)
    (cindex : Nat) (m : Nat) (s : State)
    (top : Nat × Nat) (rest : List (Nat × Nat))
    (hsort : sortDescByCount
        (tallyOf s (cid, cindex) (s.meetupRegistry (cid, cindex) m)) =
      top :: rest)
    (hlow : top.2 < 3) :
    issueRewardsMeetup env cid cindex m s = s := by
  unfold issueRewardsMeetup ballotMeetupNVotes
  simp only [hsort, hlow, if_pos]

/-- Witness for C8: two members voting the same value give a winning
bucket of 2 votes, and the meetup is skipped. -/
theorem C8_low_quorum_meetup_skipped_witness :
    (sortDescByCount (tallyOf lowQuorumState (0, 1)
        (lowQuorumState.meetupRegistry (0, 1) 1)) = [(5, 2)] ∧
      (5, 2).2 < 3) ∧
    issueRewardsMeetup baseEnv 0 1 1 lowQuorumState = lowQuorumState :=
  ⟨⟨by decide, by decide⟩,
    C8_low_quorum_meetup_skipped baseEnv 0 1 1 lowQuorumState (5, 2) []
      (by decide) (by decide)⟩

/-- C6: under the ambient preconditions of registration (REGISTERING
phase, known community, sender not yet registered, no counter overflow),
a call with a proof succeeds iff the prover equals the caller, the
proof's ceremony index is strictly earlier than and within one ceremony
of the current one, the referenced reputation is exactly
VerifiedUnlinked and the attendee signature verifies; any failure is an
error (leaving the caller's state untouched), and on success the source
reputation is burned to VerifiedLinked and the caller is registered with
reputation UnverifiedReputable. -/
theorem C6_register_with_proof_iff (env : Env) (s : State)
    (sender : Nat) (cid : Nat) (p : ProofOfAttendance)
    (hphase : env.currentPhase = CeremonyPhaseType.REGISTERING)
    (hcid : cid ∈ env.currencyIdentifiers)
    (hreg : s.participantIndex (cid, env.currentCeremonyIndex) sender = 0)
    (hcount :
      s.participantCount (cid, env.currentCeremonyIndex) + 1 ≤ u64Max) :
    ((∃ s', registerParticipant env s sender cid (some p) = .ok s') ↔
      (sender = p.prover_public ∧
        p.ceremony_index < env.currentCeremonyIndex ∧
        env.currentCeremonyIndex - REPUTATION_LIFETIME ≤ p.ceremony_index ∧
        s.participantReputation (p.currency_identifier, p.ceremony_index)
          p.attendee_public = Reputation.VerifiedUnlinked ∧
        verifyAttendeeSignature env p = true)) ∧
    (∀ s', registerParticipant env s sender cid (some p) = .ok s' →
      s'.participantReputation (p.currency_identifier, p.ceremony_index)
          p.attendee_public = Reputation.VerifiedLinked ∧
        s'.participantReputation (cid, env.currentCeremonyIndex) sender =
          Reputation.UnverifiedReputable ∧
        s'.participantIndex (cid, env.currentCeremonyIndex) sender =
          s.participantCount (cid, env.currentCeremonyIndex) + 1 ∧
        s'.participantCount (cid, env.currentCeremonyIndex) =
          s.participantCount (cid, env.currentCeremonyIndex) + 1) := by
  have hc : checkedAddU64
      (s.participantCount (cid, env.currentCeremonyIndex)) 1 =
      some (s.participantCount (cid, env.currentCeremonyIndex) + 1) := by
    simp [checkedAddU64, hcount]
  by_cases h1 : sender = p.prover_public
  · by_cases h2 : p.ceremony_index < env.currentCeremonyIndex
    · by_cases h3 :
        env.currentCeremonyIndex - REPUTATION_LIFETIME ≤ p.ceremony_index
      · by_cases h4 :
          s.participantReputation (p.currency_identifier, p.ceremony_index)
            p.attendee_public = Reputation.VerifiedUnlinked
        · by_cases h5 : verifyAttendeeSignature env p = true
          · have hidx1 : p.ceremony_index ≠ env.currentCeremonyIndex := by
              omega
            have hidx2 : env.currentCeremonyIndex ≠ p.ceremony_index := by
              omega
            constructor
            · simp only [registerParticipant, proofCheck, hphase, hcid, hreg, hc]
              simp [h1, h2, h3, h4, h5]
            · intro s' hs'
              simp only [registerParticipant, proofCheck, hphase, hcid, hreg, hc] at hs'
              simp only [h1, h2, h3, h4, h5] at hs'
              simp at hs'
              subst hs'
              refine ⟨?_, ?_, ?_, ?_⟩ <;>
                simp [upd2, upd1, h1, hidx1, hidx2]
          · constructor
            · simp only [registerParticipant, proofCheck, hphase, hcid, hreg, hc]
              simp [h1, h2, h3, h4, h5]
            · intro s' hs'
              simp only [registerParticipant, proofCheck, hphase, hcid, hreg, hc] at hs'
              simp [h1, h2, h3, h4, h5] at hs'
        · constructor
          · simp only [registerParticipant, proofCheck, hphase, hcid, hreg, hc]
            simp [h1, h2, h3, h4]
          · intro s' hs'
            simp only [registerParticipant, proofCheck, hphase, hcid, hreg, hc] at hs'
            simp [h1, h2, h3, h4] at hs'
      · constructor
        · simp only [registerParticipant, proofCheck, hphase, hcid, hreg, hc]
          simp [h1, h2, h3]
        · intro s' hs'
          simp only [registerParticipant, proofCheck, hphase, hcid, hreg, hc] at hs'
          simp [h1, h2, h3] at hs'
    · constructor
      · simp only [registerParticipant, proofCheck, hphase, hcid, hreg, hc]
        simp [h1, h2]
      · intro s' hs'
        simp only [registerParticipant, proofCheck, hphase, hcid, hreg, hc] at hs'
        simp [h1, h2] at hs'
  · constructor
    · simp only [registerParticipant, proofCheck, hphase, hcid, hreg, hc]
      simp [h1]
    · intro s' hs'
      simp only [registerParticipant, proofCheck, hphase, hcid, hreg, hc] at hs'
      simp [h1] at hs'

/-- Witness for C6 at a concrete environment, state and proof. -/
theorem C6_register_with_proof_iff_witness :
    (regEnv.currentPhase = CeremonyPhaseType.REGISTERING ∧
      0 ∈ regEnv.currencyIdentifiers ∧
      regState.participantIndex (0, regEnv.currentCeremonyIndex) 7 = 0 ∧
      regState.participantCount (0, regEnv.currentCeremonyIndex) + 1 ≤
        u64Max) ∧
    (((∃ s', registerParticipant regEnv regState 7 0 (some regProof) =
          .ok s') ↔
        (7 = regProof.prover_public ∧
          regProof.ceremony_index < regEnv.currentCeremonyIndex ∧
          regEnv.currentCeremonyIndex - REPUTATION_LIFETIME ≤
            regProof.ceremony_index ∧
          regState.participantReputation
            (regProof.currency_identifier, regProof.ceremony_index)
            regProof.attendee_public = Reputation.VerifiedUnlinked ∧
          verifyAttendeeSignature regEnv regProof = true)) ∧
      (∀ s', registerParticipant regEnv regState 7 0 (some regProof) =
          .ok s' →
        s'.participantReputation
            (regProof.currency_identifier, regProof.ceremony_index)
            regProof.attendee_public = Reputation.VerifiedLinked ∧
          s'.participantReputation (0, regEnv.currentCeremonyIndex) 7 =
            Reputation.UnverifiedReputable ∧
          s'.participantIndex (0, regEnv.currentCeremonyIndex) 7 =
            regState.participantCount (0, regEnv.currentCeremonyIndex) + 1 ∧
          s'.participantCount (0, regEnv.currentCeremonyIndex) =
            regState.participantCount (0, regEnv.currentCeremonyIndex) +
              1)) :=
  ⟨⟨by decide, by decide, by decide, by decide⟩,
    C6_register_with_proof_iff regEnv regState 7 0 regProof (by decide)
      (by decide) (by decide) (by decide)⟩

/-- Witness for C9 at a concrete environment and state. -/
theorem C9_purge_clears_keeps_reputation_witness :
    0 ∈ baseEnv.currencyIdentifiers ∧
      (PurgedAt (purgeRegistry baseEnv 1 baseState) (0, 1) ∧
        (purgeRegistry baseEnv 1 baseState).participantReputation =
          baseState.participantReputation) :=
  ⟨by decide, C9_purge_clears_keeps_reputation baseEnv 1 baseState 0
    (by decide)⟩

end Encointer
